import Mathlib

set_option maxRecDepth 8000

/-!
Verification of the support-ticket backend's triage pipeline and ticket
lifecycle, as a shallow embedding of the TypeScript sources.

Embedded components:
* the JavaScript-flavoured string utilities used by `AIService.parseTriageResponse`
  (trim, Markdown code-fence stripping, `String(...)` coercion, `parseInt`);
* a strict JSON parser standing for `JSON.parse`;
* the field normalizers `normalizeCategory` / `normalizeSentiment` /
  `normalizeUrgency` and the triage parse/validate pipeline of
  `src/services/ai.service.ts`;
* the ticket data model, `TicketService.updateTriage`, and the
  `TicketController.resolve` / `TicketController.close` / creator-facing
  `TicketController.getById` handlers of `src/controllers/ticket.controller.ts`;
* the BullMQ job handler of `src/lib/ticket.queue.ts`.
-/

/-! ### JavaScript-style character and string helpers -/

/-- JSON whitespace accepted by `JSON.parse`: space, tab, line feed, carriage return. -/
def wsJson (c : Char) : Bool :=
  c = ' ' || c = '\t' || c = '\n' || c = '\r'

/-- Whitespace recognised by JavaScript's `String.prototype.trim` and the regex
class `\s` (ASCII part; the rarely relevant Unicode space characters are omitted). -/
def wsJs (c : Char) : Bool :=
  wsJson c || c = '\x0b' || c = '\x0c'

/-- Drop leading characters satisfying `p` (left half of a trim). -/
def dropLeadingWhile (p : Char → Bool) (l : List Char) : List Char :=
  l.dropWhile p

/-- Drop trailing characters satisfying `p` (right half of a trim). -/
def dropTrailingWhile (p : Char → Bool) (l : List Char) : List Char :=
  (l.reverse.dropWhile p).reverse

/-- JavaScript `String.prototype.trim` on a character list. -/
def jsTrimList (l : List Char) : List Char :=
  dropTrailingWhile wsJs (dropLeadingWhile wsJs l)

/-- JavaScript `String.prototype.trim` on a string. -/
def jsTrim (s : String) : String :=
  String.mk (jsTrimList s.data)

/-- Lower-case an ASCII letter, the character-level effect of the `i` regex flag. -/
def lowerAscii (c : Char) : Char :=
  if 'A' ≤ c && c ≤ 'Z' then Char.ofNat (c.toNat + 32) else c

/-- The four characters of the optional fence tag `json`. -/
def jsonTagChars : List Char := ['j', 's', 'o', 'n']

/-- Effect of `.replace(/^BTBTBT(?:json)?\s*an empty string/i, ...)` where BT is a
backtick: if the text starts with three backticks, drop them, drop one
case-insensitive `json` tag if present, then drop following whitespace.
Translated from `AIService.parseTriageResponse`. -/
def stripLeadFence (l : List Char) : List Char :=
  match l with
  | '\x60' :: '\x60' :: '\x60' :: rest =>
      let rest2 := if (rest.take 4).map lowerAscii = jsonTagChars then rest.drop 4 else rest
      rest2.dropWhile wsJs
  | _ => l

/-- Effect of `.replace` of trailing whitespace, three backticks, whitespace at
the end of the string, phrased on the reversed character list. -/
def stripTrailFenceRev (l : List Char) : List Char :=
  match l.dropWhile wsJs with
  | '\x60' :: '\x60' :: '\x60' :: rest => rest.dropWhile wsJs
  | _ => l

/-- Effect of `.replace(/\s*BTBTBT\s*$/i, ...)` where BT is a backtick. -/
def stripTrailFence (l : List Char) : List Char :=
  (stripTrailFenceRev l.reverse).reverse

/-- The string preprocessing of `AIService.parseTriageResponse`:
`raw.trim()`, strip a leading code fence, strip a trailing code fence, `trim()`. -/
def triagePipeline (l : List Char) : List Char :=
  jsTrimList (stripTrailFence (stripLeadFence (jsTrimList l)))

/-! ### JavaScript values produced by `JSON.parse` -/

/-- A JavaScript number kept exact as `mantissa * 10 ^ exp10`; every literal a
strict JSON parse accepts has this form. -/
structure JsNum where
  mantissa : Int
  exp10 : Int
deriving DecidableEq, Repr

mutual
/-- A JavaScript value as produced by `JSON.parse`. -/
inductive JsValue where
  | null
  | bool (b : Bool)
  | num (n : JsNum)
  | str (s : String)
  | arr (elems : JsArr)
  | obj (fields : JsObj)
deriving DecidableEq, Repr
/-- Elements of a JavaScript array, in order. -/
inductive JsArr where
  | nil
  | cons (v : JsValue) (tl : JsArr)
deriving DecidableEq, Repr
/-- Members of a JavaScript object, in source order (duplicates possible). -/
inductive JsObj where
  | nil
  | cons (k : String) (v : JsValue) (tl : JsObj)
deriving DecidableEq, Repr
end

/-- Property read `o[k]` on an object: `JSON.parse` keeps the last duplicate
key, so the last binding wins. -/
def JsObj.getProp (k : String) : JsObj → Option JsValue
  | .nil => none
  | .cons k' v tl =>
      match JsObj.getProp k tl with
      | some r => some r
      | none => if k' = k then some v else none

/-- Property access `value.k` for the (non-numeric, non-builtin) property names
the triage normalizer reads. Reading a property of a primitive or an array
yields `undefined` (here `none`); reading a property of `null` throws in
JavaScript and is handled separately by the caller. -/
def jsGetProp (v : JsValue) (k : String) : Option JsValue :=
  match v with
  | .obj fields => fields.getProp k
  | _ => none

/-! ### Strict JSON parsing (the behaviour of `JSON.parse`) -/

/-- Decimal digit test. -/
def isDigitCh (c : Char) : Bool := '0' ≤ c && c ≤ '9'

/-- Numeric value of one hex digit, if any. -/
def hexDigitVal (c : Char) : Option Nat :=
  let n := c.toNat
  if 48 ≤ n ∧ n ≤ 57 then some (n - 48)
  else if 97 ≤ n ∧ n ≤ 102 then some (n - 87)
  else if 65 ≤ n ∧ n ≤ 70 then some (n - 55)
  else none

/-- Value of a two-character simple escape; `none` when the escape is illegal. -/
def escapeVal (c : Char) : Option Char :=
  if c = '"' then some '"'
  else if c = '\\' then some '\\'
  else if c = '/' then some '/'
  else if c = 'b' then some '\x08'
  else if c = 'f' then some '\x0c'
  else if c = 'n' then some '\n'
  else if c = 'r' then some '\r'
  else if c = 't' then some '\t'
  else none

/-- Parse the body of a JSON string literal after the opening quote, returning
the decoded characters and the input after the closing quote. Raw control
characters are rejected, as `JSON.parse` does. (Astral characters written as
surrogate pairs decode to two replacement slots rather than one combined
character; no claim depends on them.) -/
def parseStringBody : List Char → Option (List Char × List Char)
  | [] => none
  | '"' :: rest => some ([], rest)
  | '\\' :: 'u' :: a :: b :: c :: d :: rest =>
      (match hexDigitVal a, hexDigitVal b, hexDigitVal c, hexDigitVal d with
       | some va, some vb, some vc, some vd =>
           (parseStringBody rest).map
             (fun p => (Char.ofNat (((va * 16 + vb) * 16 + vc) * 16 + vd) :: p.1, p.2))
       | _, _, _, _ => none)
  | '\\' :: e :: rest =>
      (match escapeVal e with
       | some ch => (parseStringBody rest).map (fun p => (ch :: p.1, p.2))
       | none => none)
  | c :: rest =>
      if c.toNat < 32 then none
      else (parseStringBody rest).map (fun p => (c :: p.1, p.2))

/-- Read a maximal run of decimal digits as a natural number together with its
length and the rest of the input; `none` when there is no digit. -/
def readDigits (l : List Char) : Option (Nat × Nat × List Char) :=
  let ds := l.takeWhile isDigitCh
  if ds.isEmpty then none
  else some (ds.foldl (fun acc c => acc * 10 + (c.toNat - '0'.toNat)) 0, ds.length, l.dropWhile isDigitCh)

/-- Sign application for a parsed mantissa. -/
def mkJsNum (neg : Bool) (m : Nat) (e : Int) : JsNum :=
  ⟨if neg then -(m : Int) else (m : Int), e⟩

/-- Parse the integer part of a JSON number: `0`, or a digit run that does
not start with zero. -/
def parseNumInt (l : List Char) : Option (Nat × List Char) :=
  match l with
  | '0' :: r => some (0, r)
  | c :: _ => if isDigitCh c && c ≠ '0' then (readDigits l).map (fun p => (p.1, p.2.2)) else none
  | [] => none

/-- Parse the optional exponent of a JSON number and assemble the value. -/
def parseNumExp (neg : Bool) (m1 : Nat) (e1 : Int) (l : List Char) : Option (JsNum × List Char) :=
  match l with
  | 'e' :: r | 'E' :: r =>
      (match r with
       | '+' :: r2 => (readDigits r2).map (fun p => (mkJsNum neg m1 (e1 + p.1), p.2.2))
       | '-' :: r2 => (readDigits r2).map (fun p => (mkJsNum neg m1 (e1 - p.1), p.2.2))
       | _ => (readDigits r).map (fun p => (mkJsNum neg m1 (e1 + p.1), p.2.2)))
  | _ => some (mkJsNum neg m1 e1, l)

/-- Parse the optional fraction of a JSON number, then its exponent. -/
def parseNumRest (neg : Bool) (ival : Nat) (l : List Char) : Option (JsNum × List Char) :=
  match l with
  | '.' :: r =>
      (match readDigits r with
       | none => none
       | some (fv, fk, r2) => parseNumExp neg (ival * 10 ^ fk + fv) (-(fk : Int)) r2)
  | _ => parseNumExp neg ival 0 l

/-- Parse a JSON number literal: optional minus, integer part, optional
fraction, optional exponent. -/
def parseNumberTok (l : List Char) : Option (JsNum × List Char) :=
  match l with
  | '-' :: r =>
      (match parseNumInt r with
       | none => none
       | some (ival, l2) => parseNumRest true ival l2)
  | _ =>
      (match parseNumInt l with
       | none => none
       | some (ival, l2) => parseNumRest false ival l2)

mutual
/-- Parse one JSON value. `fuel` only bounds recursion depth; `jsonParseList`
supplies enough for any input. -/
def parseValueF : Nat → List Char → Option (JsValue × List Char)
  | 0, _ => none
  | _ + 1, [] => none
  | f + 1, c :: rest =>
      if c = '\x7b' then
        (parseObjectF f rest).map (fun p => (.obj p.1, p.2))
      else if c = '[' then
        (parseArrayF f rest).map (fun p => (.arr p.1, p.2))
      else if c = '"' then
        (parseStringBody rest).map (fun p => (.str (String.mk p.1), p.2))
      else if c = 't' then
        match rest with
        | 'r' :: 'u' :: 'e' :: r => some (.bool true, r)
        | _ => none
      else if c = 'f' then
        match rest with
        | 'a' :: 'l' :: 's' :: 'e' :: r => some (.bool false, r)
        | _ => none
      else if c = 'n' then
        match rest with
        | 'u' :: 'l' :: 'l' :: r => some (.null, r)
        | _ => none
      else if c = '-' || isDigitCh c then
        (parseNumberTok (c :: rest)).map (fun p => (.num p.1, p.2))
      else none

/-- Parse the inside of an object after the opening brace. -/
def parseObjectF : Nat → List Char → Option (JsObj × List Char)
  | 0, _ => none
  | f + 1, l =>
      match l.dropWhile wsJson with
      | '\x7d' :: rest => some (.nil, rest)
      | l1 => parseMembersF f l1

/-- Parse one `"key": value` member together with the whitespace after it. -/
def parseMemberKV : Nat → List Char → Option ((String × JsValue) × List Char)
  | 0, _ => none
  | f + 1, l =>
      match l.dropWhile wsJson with
      | '"' :: r0 =>
          match parseStringBody r0 with
          | none => none
          | some (k, r1) =>
              match r1.dropWhile wsJson with
              | ':' :: r3 =>
                  match parseValueF f (r3.dropWhile wsJson) with
                  | none => none
                  | some (v, r5) => some ((String.mk k, v), r5.dropWhile wsJson)
              | _ => none
      | _ => none

/-- Parse one or more members up to the closing brace. -/
def parseMembersF : Nat → List Char → Option (JsObj × List Char)
  | 0, _ => none
  | f + 1, l =>
      match parseMemberKV f l with
      | none => none
      | some (kv, r6) =>
          match r6 with
          | ',' :: r7 => (parseMembersF f r7).map (fun p => (.cons kv.1 kv.2 p.1, p.2))
          | '\x7d' :: rest => some (.cons kv.1 kv.2 .nil, rest)
          | _ => none

/-- Parse the inside of an array after the opening bracket. -/
def parseArrayF : Nat → List Char → Option (JsArr × List Char)
  | 0, _ => none
  | f + 1, l =>
      match l.dropWhile wsJson with
      | ']' :: rest => some (.nil, rest)
      | l1 => parseItemsF f l1

/-- Parse one or more array items up to the closing bracket. -/
def parseItemsF : Nat → List Char → Option (JsArr × List Char)
  | 0, _ => none
  | f + 1, l =>
      match parseValueF f (l.dropWhile wsJson) with
      | none => none
      | some (v, r1) =>
          match r1.dropWhile wsJson with
          | ',' :: r2 => (parseItemsF f r2).map (fun p => (.cons v p.1, p.2))
          | ']' :: rest => some (.cons v .nil, rest)
          | _ => none
end

/-- Strict JSON parse of a whole text, the behaviour of `JSON.parse`:
leading/trailing JSON whitespace is allowed, anything else left over is an
error. The fuel `3 * length + 9` exceeds the recursion depth reachable on the
input. -/
def jsonParseList (l : List Char) : Option JsValue :=
  match parseValueF (3 * l.length + 9) (l.dropWhile wsJson) with
  | some (v, rest) => if rest.dropWhile wsJson = [] then some v else none
  | none => none

/-- Strict JSON parse of a string. -/
def jsonParse (s : String) : Option JsValue :=
  jsonParseList s.data

/-! ### JavaScript coercions used by the normalizers -/

/-- Decimal digits of a natural number. -/
def natDigits (n : Nat) : List Char :=
  Nat.toDigits 10 n

/-- Print a JavaScript number for string coercion. Exact for every finite
decimal (all values a JSON parse can produce); the exponential notation
JavaScript switches to beyond 1e21 is not reproduced. -/
def jsNumToString (n : JsNum) : String :=
  if n.mantissa = 0 then "0"
  else
    let sign := if n.mantissa < 0 then "-" else ""
    let ds := natDigits n.mantissa.natAbs
    if 0 ≤ n.exp10 then
      sign ++ String.mk (ds ++ List.replicate n.exp10.toNat '0')
    else
      let k := (-n.exp10).toNat
      let body :=
        if k < ds.length then
          String.mk (ds.take (ds.length - k)) ++ "." ++ String.mk (ds.drop (ds.length - k))
        else
          "0." ++ String.mk (List.replicate (k - ds.length) '0' ++ ds)
      -- drop trailing fractional zeros and a bare trailing point
      let trimmed := dropTrailingWhile (fun c => c = '0') body.data
      let trimmed2 := dropTrailingWhile (fun c => c = '.') trimmed
      sign ++ String.mk trimmed2

mutual
/-- JavaScript `String(value)` coercion for values a JSON parse can produce. -/
def jsToString : JsValue → String
  | .null => "null"
  | .bool true => "true"
  | .bool false => "false"
  | .num n => jsNumToString n
  | .str s => s
  | .arr xs => jsArrToString xs
  | .obj _ => "[object Object]"
/-- JavaScript array string coercion: elements joined by commas, with `null`
rendering as the empty string. -/
def jsArrToString : JsArr → String
  | .nil => ""
  | .cons v tl =>
      (match v with
       | .null => ""
       | w => jsToString w) ++
      (match tl with
       | .nil => ""
       | t => "," ++ jsArrToString t)
end

/-- JavaScript `String(value)` where the value may be `undefined` (an absent
property). -/
def jsToStringU : Option JsValue → String
  | none => "undefined"
  | some v => jsToString v

/-- Numeric value of a digit run. -/
def digitsVal (ds : List Char) : Int :=
  (ds.foldl (fun acc c => acc * 10 + (c.toNat - '0'.toNat)) 0 : Nat)

/-- JavaScript `parseInt(s, 10)`: skip leading whitespace, optional sign, then
the longest digit run; `none` stands for `NaN`. -/
def jsParseInt (s : String) : Option Int :=
  let l := s.data.dropWhile wsJs
  let (neg, l1) :=
    match l with
    | '-' :: r => (true, r)
    | '+' :: r => (false, r)
    | _ => (false, l)
  let ds := l1.takeWhile isDigitCh
  if ds.isEmpty then none
  else some (if neg then -(digitsVal ds) else digitsVal ds)

/-- The exact integer value of a JavaScript number when `Number.isInteger`
holds of it, and `none` otherwise. -/
def JsNum.toInt? (n : JsNum) : Option Int :=
  if 0 ≤ n.exp10 then some (n.mantissa * 10 ^ n.exp10.toNat)
  else
    let d : Int := 10 ^ (-n.exp10).toNat
    if n.mantissa % d = 0 then some (n.mantissa / d) else none

/-! ### Triage result normalization (`AIService`, `src/services/ai.service.ts`) -/

/-- Allowed triage categories (`TRIAGE_CATEGORIES`). -/
def TRIAGE_CATEGORIES : List String := ["Billing", "Technical", "Feature Request"]

/-- Allowed urgency levels (`TRIAGE_URGENCIES`). -/
def TRIAGE_URGENCIES : List String := ["High", "Medium", "Low"]

/-- `AIService.normalizeCategory`: coerce to string, trim, keep exact enum
members, default `Technical`. -/
def normalizeCategory (value : Option JsValue) : String :=
  let s := jsTrim (jsToStringU value)
  if TRIAGE_CATEGORIES.contains s then s else "Technical"

/-- `AIService.normalizeSentiment`: a number is used as-is, anything else goes
through `parseInt(String(value), 10)`; the result must be an integer in
`[1, 10]`, otherwise `5`. -/
def normalizeSentiment (value : Option JsValue) : Int :=
  match value with
  | some (.num q) =>
      match q.toInt? with
      | some n => if 1 ≤ n ∧ n ≤ 10 then n else 5
      | none => 5
  | v =>
      match jsParseInt (jsToStringU v) with
      | some n => if 1 ≤ n ∧ n ≤ 10 then n else 5
      | none => 5

/-- `AIService.normalizeUrgency`: coerce to string, trim, keep exact enum
members, default `Medium`. -/
def normalizeUrgency (value : Option JsValue) : String :=
  let s := jsTrim (jsToStringU value)
  if TRIAGE_URGENCIES.contains s then s else "Medium"

/-- The structured triage result (`TriageResult` in `ai.service.ts`).
`sentiment_score` is kept as an integer: normalization only ever produces
integers. -/
structure TriageResult where
  ticket_id : String
  category : String
  sentiment_score : Int
  urgency : String
  response_draft : String
deriving DecidableEq, Repr

/-- Field-by-field normalization of a parsed JSON value, the object literal
built by `AIService.parseTriageResponse` after a successful `JSON.parse`. -/
def normalizeTriage (v : JsValue) (fallbackTicketId : String) : TriageResult :=
  { ticket_id :=
      match jsGetProp v "ticket_id" with
      | some (.str s) => s
      | _ => fallbackTicketId
    category := normalizeCategory (jsGetProp v "category")
    sentiment_score := normalizeSentiment (jsGetProp v "sentiment_score")
    urgency := normalizeUrgency (jsGetProp v "urgency")
    response_draft :=
      match jsGetProp v "response_draft" with
      | some (.str s) => s
      | _ => "" }

/-- Modelled from the spec: the triage call's returned outcome. The current
`AIService.triage` (absent from the source tree; only its callers and unit
tests survive) reports a parse failure as a returned outcome rather than a
thrown error, per spec section 4.1 and the `ai.service` unit tests: `valid`
is the validity gate, `result` is `none` exactly on parse failure, and `raw`
carries the unmodified model text. -/
structure TriageOutput where
  valid : Bool
  result : Option TriageResult
  raw : String
deriving DecidableEq, Repr

/-- Parse and validate one raw model response (everything `AIService.triage`
does after the model call). A successful `JSON.parse` returning `null` still
lands in the catch branch: reading `parsed.ticket_id` throws on `null`. The
validity gate is modelled from the spec: valid iff the normalized
`response_draft` is non-empty after trimming. -/
def triageCore (l : List Char) (fallbackTicketId : String) : Bool × Option TriageResult :=
  match jsonParseList (triagePipeline l) with
  | none => (false, none)
  | some .null => (false, none)
  | some v =>
      let r := normalizeTriage v fallbackTicketId
      (!(jsTrim r.response_draft == ""), some r)

/-- The triage outcome for a raw model response (`AIService.triage` minus the
model invocation; the raw text is carried through unmodified). -/
def triage (raw fallbackTicketId : String) : TriageOutput :=
  let c := triageCore raw.data fallbackTicketId
  ⟨c.1, c.2, raw⟩

/-! ### Ticket data model (`prisma` Ticket row and `TicketStatus`) -/

/-- Ticket lifecycle states (`TicketStatus` in `src/dtos/ticket.dto.ts`). -/
inductive TicketStatus where
  | OPEN
  | IN_PROGRESS
  | RESOLVED
  | CLOSED
deriving DecidableEq, Repr

/-- Canonical string of a status, as stored in the row. -/
def statusToString : TicketStatus → String
  | .OPEN => "OPEN"
  | .IN_PROGRESS => "IN_PROGRESS"
  | .RESOLVED => "RESOLVED"
  | .CLOSED => "CLOSED"

/-- A ticket row. Timestamps are abstract integers; `replyMadeBy` keeps the
string values (`"AI"` / `"HUMAN_AI"`) the service writes. -/
structure Ticket where
  id : Int
  userId : Option Int
  title : String
  content : String
  createdAt : Int
  updatedAt : Int
  status : TicketStatus
  category : Option String
  tag : Option String
  sentiment : Option Int
  urgency : Option String
  responseDraft : Option String
  replyMadeBy : Option String
  response : Option String
deriving DecidableEq, Repr

/-- The ticket table, keyed by id (`prisma.ticket.findUnique` is application). -/
def TicketStore : Type := Int → Option Ticket

/-- Write one row (the effect of a `prisma.ticket.update` on that id). -/
def setTicket (store : TicketStore) (id : Int) (t : Ticket) : TicketStore :=
  fun j => if j = id then some t else store j

/-- `TicketService.updateTriage` (`src/services/ticket.service.ts`): partial
update writing category, sentiment, urgency, responseDraft and
`replyMadeBy = "AI"`. No other column — in particular not `status` — is in
the update's data. A missing id (where `prisma` would throw) is a no-op here;
the worker only calls this with an existing ticket. -/
def updateTriage (store : TicketStore) (ticketId : Int) (tr : TriageResult) : TicketStore :=
  fun j =>
    if j = ticketId then
      (store ticketId).map (fun t =>
        { t with
          category := some tr.category
          sentiment := some tr.sentiment_score
          urgency := some tr.urgency
          responseDraft := some tr.response_draft
          replyMadeBy := some "AI" })
    else store j

/-! ### Ticket lifecycle controller (`src/controllers/ticket.controller.ts`) -/

/-- The error responses the controller can emit. -/
inductive ApiError where
  | badRequest (message code : String)
  | notFound
  | forbidden (message code : String)
deriving DecidableEq, Repr

/-- Modelled from the spec: `TicketService.resolveTicket` is absent from the
source tree (only its controller caller and its unit test survive). Per spec
section 4.3 and the unit test, it is one `prisma.ticket.update` writing
`response = draft` and `status = RESOLVED`. -/
def resolveTicket (store : TicketStore) (id : Int) (draft : String) :
    TicketStore × Option Ticket :=
  match store id with
  | some t =>
      let t2 := { t with response := some draft, status := TicketStatus.RESOLVED }
      (setTicket store id t2, some t2)
  | none => (store, none)

/-- Modelled from the spec: `TicketService.closeTicket` is absent from the
source tree (only its controller caller and its unit test survive). Per spec
section 4.3 and the unit test, it looks the ticket up (`null` when missing)
and otherwise performs one `prisma.ticket.update` writing `status = CLOSED`. -/
def closeTicket (store : TicketStore) (id : Int) : TicketStore × Option Ticket :=
  match store id with
  | some t =>
      let t2 := { t with status := TicketStatus.CLOSED }
      (setTicket store id t2, some t2)
  | none => (store, none)

deriving instance DecidableEq for Except

/-- `TicketController.resolve`: guards (valid id, ticket present, status open
or in progress, non-null and non-blank draft after trim), then
`resolveTicket(id, ticket.responseDraft)` with the untrimmed draft. -/
def resolveHandler (store : TicketStore) (id : Int) :
    TicketStore × Except ApiError Ticket :=
  if id < 1 then
    (store, .error (.badRequest "Invalid ticket ID" "BAD_REQUEST"))
  else
    match store id with
    | none => (store, .error .notFound)
    | some t =>
        if t.status ≠ TicketStatus.IN_PROGRESS ∧ t.status ≠ TicketStatus.OPEN then
          (store, .error (.badRequest "Only IN_PROGRESS or OPEN tickets can be resolved." "BAD_REQUEST"))
        else
          match t.responseDraft with
          | none =>
              (store, .error (.badRequest "Cannot resolve a ticket without a response draft." "BAD_REQUEST"))
          | some draft =>
              if jsTrim draft = "" then
                (store, .error (.badRequest "Cannot resolve a ticket without a response draft." "BAD_REQUEST"))
              else
                match resolveTicket store id draft with
                | (s2, some t2) => (s2, .ok t2)
                | (s2, none) => (s2, .error .notFound)

/-- `TicketController.close`: guards (valid id, ticket present, owner present
and equal to the requesting user, not already closed), then `closeTicket`. -/
def closeHandler (store : TicketStore) (id : Int) (requesterId : Int) :
    TicketStore × Except ApiError Ticket :=
  if id < 1 then
    (store, .error (.badRequest "Invalid ticket ID" "BAD_REQUEST"))
  else
    match store id with
    | none => (store, .error .notFound)
    | some t =>
        match t.userId with
        | none =>
            (store, .error (.forbidden "Only the user who created the ticket can close it." "FORBIDDEN"))
        | some uid =>
            if uid ≠ requesterId then
              (store, .error (.forbidden "Only the user who created the ticket can close it." "FORBIDDEN"))
            else if t.status = TicketStatus.CLOSED then
              (store, .error (.badRequest "Ticket is already closed." "BAD_REQUEST"))
            else
              match closeTicket store id with
              | (s2, some t2) => (s2, .ok t2)
              | (s2, none) => (s2, .error .notFound)

/-- A value in the creator-facing response payload. -/
inductive ViewValue where
  | vInt (i : Int)
  | vStr (s : String)
  | vDate (d : Int)
deriving DecidableEq, Repr

/-- `TicketController.getById` (creator view): the payload object as an
ordered key/value list — six base fields, plus `response` exactly when the
status is RESOLVED or CLOSED and `response` is non-null. -/
def getByIdView (t : Ticket) : List (String × ViewValue) :=
  [("id", ViewValue.vInt t.id),
   ("title", ViewValue.vStr t.title),
   ("content", ViewValue.vStr t.content),
   ("createdAt", ViewValue.vDate t.createdAt),
   ("updatedAt", ViewValue.vDate t.updatedAt),
   ("status", ViewValue.vStr (statusToString t.status))] ++
  (if t.status = TicketStatus.RESOLVED ∨ t.status = TicketStatus.CLOSED then
    match t.response with
    | some r => [("response", ViewValue.vStr r)]
    | none => []
  else [])

/-! ### Triage worker (`src/lib/ticket.queue.ts`) -/

/-- Audit statuses (`WorkerProcessStatusValue`). -/
inductive WorkerStatus where
  | INFO
  | ERROR
  | FAILED
  | INVALID_RESPONSE
deriving DecidableEq, Repr

/-- One append-only audit row (`prisma.workerProcess.create` data in
`logWorkerProcess`). -/
structure WorkerProcessRecord where
  workerId : String
  ticketId : Int
  aiReplyMessage : Option String
  rawAiResponse : Option String
  status : WorkerStatus
  errorMessage : Option String
deriving DecidableEq, Repr

/-- How one job handler invocation ends: normal return (BullMQ marks the job
completed) or a thrown error (BullMQ applies its retry policy). -/
inductive JobOutcome where
  | completed
  | failed (message : String)
deriving DecidableEq, Repr

/-- The state after one run of the job handler: the ticket table, the audit
rows appended (in order), and how the handler returned. -/
structure WorkerRunResult where
  store : TicketStore
  audit : List WorkerProcessRecord
  outcome : JobOutcome

/-- Error message standing for a rejected `prisma.workerProcess.create`. -/
def auditFailureMessage : String := "audit log write failed"

/-- One run of the `ticketWorker` job handler. `modelResponse` is the outcome
of the model invocation inside `aiService.triage` (`.error` when the upstream
call rejects); parsing and validation of a returned text are the `triage`
function above. `auditOk n` tells whether the n-th `logWorkerProcess` call of
this run succeeds; a rejected audit write inside the `try` block falls into
the `catch` block, which attempts one more FAILED audit write and rethrows. -/
def runTicketJob (store : TicketStore) (workerId : String) (ticketId : Int)
    (modelResponse : Except String String) (auditOk : Nat → Bool) : WorkerRunResult :=
  if ticketId = 0 then
    -- `if (!ticketId)`: job without a usable ticket id, logged and dropped
    ⟨store, [], .completed⟩
  else
    match store ticketId with
    | none =>
        -- not-found audit write happens outside the try/catch: its failure propagates
        if auditOk 0 then
          ⟨store,
           [⟨workerId, ticketId, none, none, .FAILED, some ("Ticket not found: " ++ toString ticketId)⟩],
           .completed⟩
        else ⟨store, [], .failed auditFailureMessage⟩
    | some t =>
        match modelResponse with
        | .error e =>
            -- classifier error: catch logs FAILED, then rethrows
            if auditOk 0 then
              ⟨store, [⟨workerId, ticketId, none, none, .FAILED, some e⟩], .failed e⟩
            else ⟨store, [], .failed auditFailureMessage⟩
        | .ok raw =>
            let out := triage raw (toString t.id)
            match out.result with
            | none =>
                if auditOk 0 then
                  ⟨store, [⟨workerId, ticketId, none, some out.raw, .INVALID_RESPONSE, none⟩], .completed⟩
                else if auditOk 1 then
                  ⟨store, [⟨workerId, ticketId, none, none, .FAILED, some auditFailureMessage⟩],
                   .failed auditFailureMessage⟩
                else ⟨store, [], .failed auditFailureMessage⟩
            | some r =>
                if out.valid then
                  let store2 := updateTriage store ticketId r
                  if auditOk 0 then
                    ⟨store2, [⟨workerId, ticketId, some r.response_draft, some out.raw, .INFO, none⟩], .completed⟩
                  else if auditOk 1 then
                    ⟨store2, [⟨workerId, ticketId, none, none, .FAILED, some auditFailureMessage⟩],
                     .failed auditFailureMessage⟩
                  else ⟨store2, [], .failed auditFailureMessage⟩
                else
                  if auditOk 0 then
                    ⟨store, [⟨workerId, ticketId, none, some out.raw, .INVALID_RESPONSE, none⟩], .completed⟩
                  else if auditOk 1 then
                    ⟨store, [⟨workerId, ticketId, none, none, .FAILED, some auditFailureMessage⟩],
                     .failed auditFailureMessage⟩
                  else ⟨store, [], .failed auditFailureMessage⟩

/-! ### C5 normalization helpers -/

/-- The sentiment coercion of `normalizeSentiment`: a JavaScript number is
used as-is (when it is an integer), anything else goes through
`parseInt(String(value), 10)`. -/
def sentimentCoerce (value : Option JsValue) : Option Int :=
  match value with
  | some (.num q) => q.toInt?
  | v => jsParseInt (jsToStringU v)

/-- The string-or-default read `typeof x === "string" ? x : d`. -/
def strFieldValue (o : Option JsValue) (d : String) : String :=
  match o with
  | some (JsValue.str s) => s
  | _ => d

/-- C5 exactly as the claim states it: category and urgency keep the parsed
value only when it is *exactly* one of the allowed strings. -/
def c5StatedClaim : Prop :=
  ∀ (v : JsValue) (fid : String),
    ((∃ s, jsGetProp v "category" = some (JsValue.str s) ∧
        TRIAGE_CATEGORIES.contains s = true ∧ (normalizeTriage v fid).category = s) ∨
     ((¬ ∃ s, jsGetProp v "category" = some (JsValue.str s) ∧
        TRIAGE_CATEGORIES.contains s = true) ∧ (normalizeTriage v fid).category = "Technical")) ∧
    ((∃ n, sentimentCoerce (jsGetProp v "sentiment_score") = some n ∧ 1 ≤ n ∧ n ≤ 10 ∧
        (normalizeTriage v fid).sentiment_score = n) ∨
     ((¬ ∃ n, sentimentCoerce (jsGetProp v "sentiment_score") = some n ∧ 1 ≤ n ∧ n ≤ 10) ∧
        (normalizeTriage v fid).sentiment_score = 5)) ∧
    ((∃ s, jsGetProp v "urgency" = some (JsValue.str s) ∧
        TRIAGE_URGENCIES.contains s = true ∧ (normalizeTriage v fid).urgency = s) ∨
     ((¬ ∃ s, jsGetProp v "urgency" = some (JsValue.str s) ∧
        TRIAGE_URGENCIES.contains s = true) ∧ (normalizeTriage v fid).urgency = "Medium")) ∧
    ((∃ s, jsGetProp v "ticket_id" = some (JsValue.str s) ∧ (normalizeTriage v fid).ticket_id = s) ∨
     ((¬ ∃ s, jsGetProp v "ticket_id" = some (JsValue.str s)) ∧
        (normalizeTriage v fid).ticket_id = fid)) ∧
    ((∃ s, jsGetProp v "response_draft" = some (JsValue.str s) ∧
        (normalizeTriage v fid).response_draft = s) ∨
     ((¬ ∃ s, jsGetProp v "response_draft" = some (JsValue.str s)) ∧
        (normalizeTriage v fid).response_draft = ""))

/-! ### Shared concrete sample data for witnesses -/

/-- A stored OPEN ticket owned by user 7 with a usable draft. -/
def sampleTicketOpen : Ticket :=
  ⟨1, some 7, "Login broken", "Cannot log in", 0, 0, TicketStatus.OPEN,
   none, none, none, none, some "  hi  ", none, none⟩

/-- A one-row ticket table holding `sampleTicketOpen` at id 1. -/
def sampleStore : TicketStore :=
  fun j => if j = 1 then some sampleTicketOpen else none

/-- A well-formed model response accepted by the triage parser. -/
def sampleValidRaw : String :=
  "\x7b\"ticket_id\":\"1\",\"category\":\"Billing\",\"sentiment_score\":3,\"urgency\":\"High\",\"response_draft\":\"Hello\"\x7d"

/-- Rows of `sampleStore` only sit at positive ids. -/
theorem sampleStore_wf : ∀ i t, sampleStore i = some t → 1 ≤ i := by
  intro i t h
  by_cases hi : i = 1
  · omega
  · simp [sampleStore, hi] at h

/-! ### C10 — creator-facing get-by-id view -/

/-- C10: for every ticket, the creator-facing get-by-id payload holds exactly
the keys id, title, content, createdAt, updatedAt, status — plus `response`
exactly when the status is RESOLVED or CLOSED and `response` is non-null, in
which case it carries the stored response verbatim; responseDraft, category,
sentiment, urgency, tag and replyMadeBy never appear. -/
theorem c10_creator_view_fields (t : Ticket) :
    ((∃ r, t.response = some r ∧ (t.status = TicketStatus.RESOLVED ∨ t.status = TicketStatus.CLOSED) ∧
        getByIdView t =
          [("id", ViewValue.vInt t.id), ("title", ViewValue.vStr t.title),
           ("content", ViewValue.vStr t.content), ("createdAt", ViewValue.vDate t.createdAt),
           ("updatedAt", ViewValue.vDate t.updatedAt),
           ("status", ViewValue.vStr (statusToString t.status)),
           ("response", ViewValue.vStr r)]) ∨
     (¬ ((t.status = TicketStatus.RESOLVED ∨ t.status = TicketStatus.CLOSED) ∧ t.response ≠ none) ∧
        getByIdView t =
          [("id", ViewValue.vInt t.id), ("title", ViewValue.vStr t.title),
           ("content", ViewValue.vStr t.content), ("createdAt", ViewValue.vDate t.createdAt),
           ("updatedAt", ViewValue.vDate t.updatedAt),
           ("status", ViewValue.vStr (statusToString t.status))])) ∧
    "responseDraft" ∉ (getByIdView t).map Prod.fst ∧
    "category" ∉ (getByIdView t).map Prod.fst ∧
    "sentiment" ∉ (getByIdView t).map Prod.fst ∧
    "urgency" ∉ (getByIdView t).map Prod.fst ∧
    "tag" ∉ (getByIdView t).map Prod.fst ∧
    "replyMadeBy" ∉ (getByIdView t).map Prod.fst := by
  constructor
  · by_cases hs : t.status = TicketStatus.RESOLVED ∨ t.status = TicketStatus.CLOSED
    · cases hr : t.response with
      | some r => exact Or.inl ⟨r, rfl, hs, by simp [getByIdView, hs, hr]⟩
      | none => exact Or.inr ⟨by simp [hr], by simp [getByIdView, hs, hr]⟩
    · exact Or.inr ⟨by simp [hs], by simp [getByIdView, hs]⟩
  · by_cases hs : t.status = TicketStatus.RESOLVED ∨ t.status = TicketStatus.CLOSED <;>
      cases hr : t.response <;>
      simp [getByIdView, hs, hr]

/-! ### C2 — resolve operation -/

/-- C2: resolve succeeds exactly when the ticket exists with status OPEN or
IN_PROGRESS and a non-null, non-blank (after trim) draft; on success the
untrimmed draft is copied verbatim into `response` and the status becomes
RESOLVED, with no other row touched; on every rejection the table is
unchanged and an error is returned. The hypothesis states the database
invariant that rows sit at positive ids. -/
theorem c2_resolve_spec (store : TicketStore) (id : Int)
    (hwf : ∀ i t, store i = some t → 1 ≤ i) :
    ((∃ t2, (resolveHandler store id).2 = Except.ok t2) ↔
      (∃ t d, store id = some t ∧
        (t.status = TicketStatus.OPEN ∨ t.status = TicketStatus.IN_PROGRESS) ∧
        t.responseDraft = some d ∧ jsTrim d ≠ "")) ∧
    (∀ t d, store id = some t →
      (t.status = TicketStatus.OPEN ∨ t.status = TicketStatus.IN_PROGRESS) →
      t.responseDraft = some d → jsTrim d ≠ "" →
      (resolveHandler store id).2 =
        Except.ok { t with response := some d, status := TicketStatus.RESOLVED } ∧
      (resolveHandler store id).1 id =
        some { t with response := some d, status := TicketStatus.RESOLVED } ∧
      ∀ j, j ≠ id → (resolveHandler store id).1 j = store j) ∧
    ((¬ ∃ t d, store id = some t ∧
        (t.status = TicketStatus.OPEN ∨ t.status = TicketStatus.IN_PROGRESS) ∧
        t.responseDraft = some d ∧ jsTrim d ≠ "") →
      (resolveHandler store id).1 = store ∧
      ∃ e, (resolveHandler store id).2 = Except.error e) := by
  by_cases hid : id < 1
  · have hres : resolveHandler store id =
        (store, Except.error (ApiError.badRequest "Invalid ticket ID" "BAD_REQUEST")) := by
      simp [resolveHandler, hid]
    refine ⟨?_, ?_, ?_⟩
    · rw [hres]
      constructor
      · rintro ⟨t2, ht2⟩; exact absurd ht2 (by simp)
      · rintro ⟨t, d, ht, -⟩; exact absurd (hwf id t ht) (by omega)
    · intro t d ht _ _ _; exact absurd (hwf id t ht) (by omega)
    · intro _; rw [hres]; exact ⟨rfl, _, rfl⟩
  · cases hst : store id with
    | none =>
        have hres : resolveHandler store id = (store, Except.error ApiError.notFound) := by
          simp [resolveHandler, hid, hst]
        refine ⟨?_, ?_, ?_⟩
        · rw [hres]
          constructor
          · rintro ⟨t2, ht2⟩; exact absurd ht2 (by simp)
          · rintro ⟨t, d, ht, -⟩; exact absurd ht (by simp)
        · intro t d ht; exact absurd ht (by simp)
        · intro _; rw [hres]; exact ⟨rfl, _, rfl⟩
    | some t =>
        by_cases hstat : t.status = TicketStatus.OPEN ∨ t.status = TicketStatus.IN_PROGRESS
        · have hguard : ¬ (t.status ≠ TicketStatus.IN_PROGRESS ∧ t.status ≠ TicketStatus.OPEN) := by
            rcases hstat with h | h <;> simp [h]
          cases hdr : t.responseDraft with
          | none =>
              have hres : resolveHandler store id =
                  (store, Except.error (ApiError.badRequest
                    "Cannot resolve a ticket without a response draft." "BAD_REQUEST")) := by
                simp [resolveHandler, hid, hst, hguard, hdr]
              refine ⟨?_, ?_, ?_⟩
              · rw [hres]
                constructor
                · rintro ⟨t2, ht2⟩; exact absurd ht2 (by simp)
                · rintro ⟨t', d, ht', -, hd', -⟩
                  obtain rfl : t = t' := by injection ht'
                  rw [hdr] at hd'; exact absurd hd' (by simp)
              · intro t' d ht' _ hd' _
                obtain rfl : t = t' := by injection ht'
                rw [hdr] at hd'; exact absurd hd' (by simp)
              · intro _; rw [hres]; exact ⟨rfl, _, rfl⟩
          | some d =>
              by_cases hblank : jsTrim d = ""
              · have hres : resolveHandler store id =
                    (store, Except.error (ApiError.badRequest
                      "Cannot resolve a ticket without a response draft." "BAD_REQUEST")) := by
                  simp [resolveHandler, hid, hst, hguard, hdr, hblank]
                refine ⟨?_, ?_, ?_⟩
                · rw [hres]
                  constructor
                  · rintro ⟨t2, ht2⟩; exact absurd ht2 (by simp)
                  · rintro ⟨t', d', ht', -, hd', hb'⟩
                    obtain rfl : t = t' := by injection ht'
                    rw [hdr] at hd'
                    obtain rfl : d = d' := by injection hd'
                    exact (hb' hblank).elim
                · intro t' d' ht' _ hd' hb'
                  obtain rfl : t = t' := by injection ht'
                  rw [hdr] at hd'
                  obtain rfl : d = d' := by injection hd'
                  exact absurd hblank hb'
                · intro _; rw [hres]; exact ⟨rfl, _, rfl⟩
              · have hres : resolveHandler store id =
                    (setTicket store id { t with response := some d, status := TicketStatus.RESOLVED },
                     Except.ok { t with response := some d, status := TicketStatus.RESOLVED }) := by
                  simp [resolveHandler, hid, hst, hguard, hdr, hblank, resolveTicket]
                refine ⟨?_, ?_, ?_⟩
                · rw [hres]
                  exact ⟨fun _ => ⟨t, d, rfl, hstat, hdr, hblank⟩, fun _ => ⟨_, rfl⟩⟩
                · intro t' d' ht' _ hd' _
                  obtain rfl : t = t' := by injection ht'
                  rw [hdr] at hd'
                  obtain rfl : d = d' := by injection hd'
                  rw [hres]
                  exact ⟨rfl, by simp [setTicket], fun j hj => by simp [setTicket, hj]⟩
                · intro hno; exact absurd ⟨t, d, rfl, hstat, hdr, hblank⟩ hno
        · have hguard : t.status ≠ TicketStatus.IN_PROGRESS ∧ t.status ≠ TicketStatus.OPEN := by
            constructor <;> intro h <;> exact hstat (by simp [h])
          have hres : resolveHandler store id =
              (store, Except.error (ApiError.badRequest
                "Only IN_PROGRESS or OPEN tickets can be resolved." "BAD_REQUEST")) := by
            simp only [resolveHandler, if_neg hid, hst, if_pos hguard]
          refine ⟨?_, ?_, ?_⟩
          · rw [hres]
            constructor
            · rintro ⟨t2, ht2⟩; exact absurd ht2 (by simp)
            · rintro ⟨t', d, ht', hs', -⟩
              obtain rfl : t = t' := by injection ht'
              exact (hstat hs').elim
          · intro t' d ht' hs'
            obtain rfl : t = t' := by injection ht'
            exact absurd hs' hstat
          · intro _; rw [hres]; exact ⟨rfl, _, rfl⟩

/-- Witness for C2 at the sample store: the draft-carrying OPEN ticket
resolves, and the resolved row copies the untrimmed draft. -/
theorem c2_resolve_spec_witness :
    (resolveHandler sampleStore 1).2 =
      Except.ok { sampleTicketOpen with response := some "  hi  ", status := TicketStatus.RESOLVED } :=
  ((c2_resolve_spec sampleStore 1 sampleStore_wf).2.1 sampleTicketOpen "  hi  "
    (by decide) (Or.inl rfl) rfl (by decide)).1

/-! ### C7 — close operation -/

/-- C7: close succeeds exactly when the ticket exists, has a non-null owner
equal to the requesting user, and is not already CLOSED; an already-closed
ticket is rejected with the explicit already-closed error, an ownerless
ticket with a forbidden error; on success the only change anywhere is that
row's status becoming CLOSED. The hypothesis states the database invariant
that rows sit at positive ids. -/
theorem c7_close_spec (store : TicketStore) (id requesterId : Int)
    (hwf : ∀ i t, store i = some t → 1 ≤ i) :
    ((∃ t2, (closeHandler store id requesterId).2 = Except.ok t2) ↔
      (∃ t, store id = some t ∧ t.userId = some requesterId ∧ t.status ≠ TicketStatus.CLOSED)) ∧
    (∀ t, store id = some t → t.userId = some requesterId → t.status ≠ TicketStatus.CLOSED →
      (closeHandler store id requesterId).2 = Except.ok { t with status := TicketStatus.CLOSED } ∧
      (closeHandler store id requesterId).1 id = some { t with status := TicketStatus.CLOSED } ∧
      ∀ j, j ≠ id → (closeHandler store id requesterId).1 j = store j) ∧
    (∀ t, store id = some t → t.userId = some requesterId → t.status = TicketStatus.CLOSED →
      (closeHandler store id requesterId).2 =
        Except.error (ApiError.badRequest "Ticket is already closed." "BAD_REQUEST")) ∧
    (∀ t, store id = some t → t.userId = none →
      (closeHandler store id requesterId).2 =
        Except.error (ApiError.forbidden "Only the user who created the ticket can close it." "FORBIDDEN")) ∧
    ((¬ ∃ t, store id = some t ∧ t.userId = some requesterId ∧ t.status ≠ TicketStatus.CLOSED) →
      (closeHandler store id requesterId).1 = store) := by
  by_cases hid : id < 1
  · have hres : closeHandler store id requesterId =
        (store, Except.error (ApiError.badRequest "Invalid ticket ID" "BAD_REQUEST")) := by
      simp [closeHandler, hid]
    refine ⟨?_, ?_, ?_, ?_, ?_⟩
    · rw [hres]
      constructor
      · rintro ⟨t2, ht2⟩; exact absurd ht2 (by simp)
      · rintro ⟨t, ht, -⟩; exact absurd (hwf id t ht) (by omega)
    · intro t ht; exact absurd (hwf id t ht) (by omega)
    · intro t ht; exact absurd (hwf id t ht) (by omega)
    · intro t ht; exact absurd (hwf id t ht) (by omega)
    · intro _; rw [hres]
  · cases hst : store id with
    | none =>
        have hres : closeHandler store id requesterId = (store, Except.error ApiError.notFound) := by
          simp [closeHandler, hid, hst]
        refine ⟨?_, ?_, ?_, ?_, ?_⟩
        · rw [hres]
          constructor
          · rintro ⟨t2, ht2⟩; exact absurd ht2 (by simp)
          · rintro ⟨t, ht, -⟩; exact absurd ht (by simp)
        · intro t ht; exact absurd ht (by simp)
        · intro t ht; exact absurd ht (by simp)
        · intro t ht; exact absurd ht (by simp)
        · intro _; rw [hres]
    | some t =>
        cases huid : t.userId with
        | none =>
            have hres : closeHandler store id requesterId =
                (store, Except.error (ApiError.forbidden
                  "Only the user who created the ticket can close it." "FORBIDDEN")) := by
              simp [closeHandler, hid, hst, huid]
            refine ⟨?_, ?_, ?_, ?_, ?_⟩
            · rw [hres]
              constructor
              · rintro ⟨t2, ht2⟩; exact absurd ht2 (by simp)
              · rintro ⟨t', ht', hu', -⟩
                obtain rfl : t = t' := by injection ht'
                rw [huid] at hu'; exact absurd hu' (by simp)
            · intro t' ht' hu'
              obtain rfl : t = t' := by injection ht'
              rw [huid] at hu'; exact absurd hu' (by simp)
            · intro t' ht' hu'
              obtain rfl : t = t' := by injection ht'
              rw [huid] at hu'; exact absurd hu' (by simp)
            · intro t' ht' _
              obtain rfl : t = t' := by injection ht'
              rw [hres]
            · intro _; rw [hres]
        | some uid =>
            by_cases hu : uid = requesterId
            · rw [hu] at huid
              by_cases hcl : t.status = TicketStatus.CLOSED
              · have hres : closeHandler store id requesterId =
                    (store, Except.error (ApiError.badRequest "Ticket is already closed." "BAD_REQUEST")) := by
                  simp [closeHandler, hid, hst, huid, hcl]
                refine ⟨?_, ?_, ?_, ?_, ?_⟩
                · rw [hres]
                  constructor
                  · rintro ⟨t2, ht2⟩; exact absurd ht2 (by simp)
                  · rintro ⟨t', ht', -, hcl'⟩
                    obtain rfl : t = t' := by injection ht'
                    exact (hcl' hcl).elim
                · intro t' ht' _ hcl'
                  obtain rfl : t = t' := by injection ht'
                  exact (hcl' hcl).elim
                · intro t' ht' _ _
                  obtain rfl : t = t' := by injection ht'
                  rw [hres]
                · intro t' ht' hu'
                  obtain rfl : t = t' := by injection ht'
                  rw [huid] at hu'; exact absurd hu' (by simp)
                · intro _; rw [hres]
              · have hres : closeHandler store id requesterId =
                    (setTicket store id { t with status := TicketStatus.CLOSED },
                     Except.ok { t with status := TicketStatus.CLOSED }) := by
                  simp [closeHandler, hid, hst, huid, hcl, closeTicket]
                refine ⟨?_, ?_, ?_, ?_, ?_⟩
                · rw [hres]
                  exact ⟨fun _ => ⟨t, rfl, huid, hcl⟩, fun _ => ⟨_, rfl⟩⟩
                · intro t' ht' _ _
                  obtain rfl : t = t' := by injection ht'
                  rw [hres]
                  exact ⟨rfl, by simp [setTicket], fun j hj => by simp [setTicket, hj]⟩
                · intro t' ht' _ hcl'
                  obtain rfl : t = t' := by injection ht'
                  exact absurd hcl' hcl
                · intro t' ht' hu'
                  obtain rfl : t = t' := by injection ht'
                  rw [huid] at hu'; exact absurd hu' (by simp)
                · intro hno; exact absurd ⟨t, rfl, huid, hcl⟩ hno
            · have hres : closeHandler store id requesterId =
                  (store, Except.error (ApiError.forbidden
                    "Only the user who created the ticket can close it." "FORBIDDEN")) := by
                simp [closeHandler, hid, hst, huid, hu]
              refine ⟨?_, ?_, ?_, ?_, ?_⟩
              · rw [hres]
                constructor
                · rintro ⟨t2, ht2⟩; exact absurd ht2 (by simp)
                · rintro ⟨t', ht', hu', -⟩
                  obtain rfl : t = t' := by injection ht'
                  rw [huid] at hu'
                  obtain rfl : uid = requesterId := by injection hu'
                  exact absurd rfl hu
              · intro t' ht' hu'
                obtain rfl : t = t' := by injection ht'
                rw [huid] at hu'
                obtain rfl : uid = requesterId := by injection hu'
                exact absurd rfl hu
              · intro t' ht' hu'
                obtain rfl : t = t' := by injection ht'
                rw [huid] at hu'
                obtain rfl : uid = requesterId := by injection hu'
                exact absurd rfl hu
              · intro t' ht' hu'
                obtain rfl : t = t' := by injection ht'
                rw [huid] at hu'; exact absurd hu' (by simp)
              · intro _; rw [hres]

/-- Witness for C7: user 7 closes the sample OPEN ticket, and a second close
of the already-closed row is rejected with the already-closed error. -/
theorem c7_close_spec_witness :
    (closeHandler sampleStore 1 7).2 =
      Except.ok { sampleTicketOpen with status := TicketStatus.CLOSED } ∧
    (closeHandler (setTicket sampleStore 1 { sampleTicketOpen with status := TicketStatus.CLOSED }) 1 7).2 =
      Except.error (ApiError.badRequest "Ticket is already closed." "BAD_REQUEST") :=
  ⟨((c7_close_spec sampleStore 1 7 sampleStore_wf).2.1 sampleTicketOpen
      (by decide) rfl (by decide)).1,
   ((c7_close_spec (setTicket sampleStore 1 { sampleTicketOpen with status := TicketStatus.CLOSED }) 1 7
      (by intro i t h; by_cases hi : i = 1; · omega
          · simp [setTicket, sampleStore, hi] at h)).2.2.1
      { sampleTicketOpen with status := TicketStatus.CLOSED }
      (by decide) rfl rfl)⟩

/-! ### Worker lemmas and claims C3, C6, C1, C8 -/

/-- The triage outcome always carries the model text unmodified. -/
theorem triage_raw (raw fallbackTicketId : String) :
    (triage raw fallbackTicketId).raw = raw := rfl

/-- C3: when a ticket is RESOLVED or CLOSED at the time a valid triage result
is applied, one worker run still writes the classification fields but never
changes the status — `updateTriage` puts no status in its update data. -/
theorem c3_triage_update_preserves_status
    (store : TicketStore) (wid : String) (id : Int) (raw : String)
    (auditOk : Nat → Bool) (t : Ticket) (r : TriageResult)
    (hid : ¬ id = 0) (ht : store id = some t)
    (hs : t.status = TicketStatus.RESOLVED ∨ t.status = TicketStatus.CLOSED)
    (hr : (triage raw (toString t.id)).result = some r)
    (hv : (triage raw (toString t.id)).valid = true) :
    ∃ t2, (runTicketJob store wid id (Except.ok raw) auditOk).store id = some t2 ∧
      t2.status = t.status ∧
      t2.category = some r.category ∧
      t2.sentiment = some r.sentiment_score ∧
      t2.urgency = some r.urgency ∧
      t2.responseDraft = some r.response_draft := by
  have hstore : (runTicketJob store wid id (Except.ok raw) auditOk).store =
      updateTriage store id r := by
    by_cases h0 : auditOk 0 <;> by_cases h1 : auditOk 1 <;>
      simp [runTicketJob, hid, ht, hr, hv, h0, h1]
  refine ⟨{ t with
      category := some r.category
      sentiment := some r.sentiment_score
      urgency := some r.urgency
      responseDraft := some r.response_draft
      replyMadeBy := some "AI" }, ?_, rfl, rfl, rfl, rfl, rfl⟩
  rw [hstore]
  simp [updateTriage, ht]

/-- Witness for C3: a RESOLVED ticket keeps its status through a successful
triage run while the classification fields are overwritten. -/
theorem c3_triage_update_preserves_status_witness :
    ∃ t2, (runTicketJob
        (fun j => if j = 1 then some { sampleTicketOpen with status := TicketStatus.RESOLVED } else none)
        "w" 1 (Except.ok sampleValidRaw) (fun _ => true)).store 1 = some t2 ∧
      t2.status = TicketStatus.RESOLVED ∧
      t2.category = some "Billing" ∧
      t2.sentiment = some 3 ∧
      t2.urgency = some "High" ∧
      t2.responseDraft = some "Hello" := by
  obtain ⟨t2, h1, h2, h3, h4, h5, h6⟩ :=
    c3_triage_update_preserves_status
      (fun j => if j = 1 then some { sampleTicketOpen with status := TicketStatus.RESOLVED } else none)
      "w" 1 sampleValidRaw (fun _ => true)
      { sampleTicketOpen with status := TicketStatus.RESOLVED }
      ⟨"1", "Billing", 3, "High", "Hello"⟩
      (by decide) rfl (Or.inl rfl) (by decide) (by decide)
  exact ⟨t2, h1, h2, h3, h4, h5, h6⟩

/-- C6: on an invalid classifier outcome the worker appends exactly one
INVALID_RESPONSE audit record carrying the raw text, returns normally (the
job completes, so the queue does not retry), and leaves the ticket table
untouched. The audit write itself is assumed to succeed. -/
theorem c6_worker_invalid_response
    (store : TicketStore) (wid : String) (id : Int) (raw : String)
    (auditOk : Nat → Bool) (t : Ticket)
    (hid : ¬ id = 0) (ht : store id = some t)
    (hinv : (triage raw (toString t.id)).valid = false ∨
            (triage raw (toString t.id)).result = none)
    (haud : auditOk 0 = true) :
    (runTicketJob store wid id (Except.ok raw) auditOk).store = store ∧
    (runTicketJob store wid id (Except.ok raw) auditOk).audit =
      [⟨wid, id, none, some raw, WorkerStatus.INVALID_RESPONSE, none⟩] ∧
    (runTicketJob store wid id (Except.ok raw) auditOk).outcome = JobOutcome.completed := by
  cases hres : (triage raw (toString t.id)).result with
  | none =>
      refine ⟨?_, ?_, ?_⟩ <;>
        simp [runTicketJob, hid, ht, hres, haud, triage_raw]
  | some r =>
      have hv : (triage raw (toString t.id)).valid = false := by
        rcases hinv with h | h
        · exact h
        · rw [hres] at h; exact absurd h (by simp)
      refine ⟨?_, ?_, ?_⟩ <;>
        simp [runTicketJob, hid, ht, hres, hv, haud, triage_raw]

/-- Witness for C6: a non-JSON model reply on the sample store. -/
theorem c6_worker_invalid_response_witness :
    (runTicketJob sampleStore "w" 1 (Except.ok "not json at all") (fun _ => true)).store = sampleStore ∧
    (runTicketJob sampleStore "w" 1 (Except.ok "not json at all") (fun _ => true)).audit =
      [⟨"w", 1, none, some "not json at all", WorkerStatus.INVALID_RESPONSE, none⟩] ∧
    (runTicketJob sampleStore "w" 1 (Except.ok "not json at all") (fun _ => true)).outcome =
      JobOutcome.completed :=
  c6_worker_invalid_response sampleStore "w" 1 "not json at all" (fun _ => true)
    sampleTicketOpen (by decide) rfl (Or.inr (by decide)) rfl

/-- C1 (evaluation at the failing input): one successful worker run on a
stored OPEN ticket with a valid classifier result updates category,
sentiment, urgency, response draft, sets replyMadeBy to AI, and appends
exactly one INFO audit record with the accepted draft and raw text — but the
status stays OPEN: `updateTriage` never writes `status`, although the
repository's own unit test for it expects `status: IN_PROGRESS` in the
update data. -/
theorem c1_worker_success_leaves_status_open :
    (runTicketJob sampleStore "w" 1 (Except.ok sampleValidRaw) (fun _ => true)).store 1 =
      some { sampleTicketOpen with
              category := some "Billing"
              sentiment := some 3
              urgency := some "High"
              responseDraft := some "Hello"
              replyMadeBy := some "AI" } ∧
    (runTicketJob sampleStore "w" 1 (Except.ok sampleValidRaw) (fun _ => true)).audit =
      [⟨"w", 1, some "Hello", some sampleValidRaw, WorkerStatus.INFO, none⟩] ∧
    (runTicketJob sampleStore "w" 1 (Except.ok sampleValidRaw) (fun _ => true)).outcome =
      JobOutcome.completed ∧
    ((runTicketJob sampleStore "w" 1 (Except.ok sampleValidRaw) (fun _ => true)).store 1).map
      Ticket.status = some TicketStatus.OPEN := by
  refine ⟨by decide, by decide, by decide, by decide⟩

/-- Counterexample for C8: the very same success scenario completes when the
audit write succeeds and fails (is handed back to the queue for retry) when
the audit write raises — the job outcome is not independent of audit-log
failures. -/
theorem c8_counterexample :
    (runTicketJob sampleStore "w" 1 (Except.ok sampleValidRaw) (fun _ => true)).outcome =
      JobOutcome.completed ∧
    (runTicketJob sampleStore "w" 1 (Except.ok sampleValidRaw) (fun _ => false)).outcome ≠
      JobOutcome.completed := by
  refine ⟨by decide, by decide⟩

/-- C8 (amended): audit failures do decide the attempt. For any model
response (no classifier error) on a real job id, the job completes exactly
when the first audit write of the run succeeds; when it raises, the worker
attempts one FAILED audit record and rethrows, failing the job. -/
theorem c8_audit_failure_fails_job
    (store : TicketStore) (wid : String) (id : Int) (raw : String)
    (auditOk : Nat → Bool) (hid : ¬ id = 0) :
    ((runTicketJob store wid id (Except.ok raw) auditOk).outcome = JobOutcome.completed ↔
      auditOk 0 = true) := by
  cases hst : store id with
  | none =>
      by_cases h0 : auditOk 0 <;> simp [runTicketJob, hid, hst, h0]
  | some t =>
      cases hres : (triage raw (toString t.id)).result with
      | none =>
          by_cases h0 : auditOk 0 <;> by_cases h1 : auditOk 1 <;>
            simp [runTicketJob, hid, hst, hres, h0, h1]
      | some r =>
          by_cases hv : (triage raw (toString t.id)).valid <;>
            by_cases h0 : auditOk 0 <;> by_cases h1 : auditOk 1 <;>
              simp [runTicketJob, hid, hst, hres, hv, h0, h1]

/-- Witness for C8's amended claim: with every audit write failing, the
sample success scenario does not complete. -/
theorem c8_audit_failure_fails_job_witness :
    ¬ (runTicketJob sampleStore "w" 1 (Except.ok sampleValidRaw) (fun _ => false)).outcome =
        JobOutcome.completed := by
  intro h
  have := (c8_audit_failure_fails_job sampleStore "w" 1 sampleValidRaw (fun _ => false)
    (by decide)).mp h
  exact absurd this (by decide)

/-! ### C4 — validity gate of the triage parse -/

/-- C4: the triage outcome always carries the raw text unmodified, and it is
marked invalid exactly when the strict JSON parse of the fence-stripped text
fails or the normalized response draft trims to the empty string (a parse
producing the JSON value `null` counts as a failure of the object read and
trivially has a blank normalized draft); in every other case it is valid. -/
theorem c4_triage_invalid_iff (raw fid : String) :
    (triage raw fid).raw = raw ∧
    ((triage raw fid).valid = false ↔
      (jsonParseList (triagePipeline raw.data) = none ∨
       ∃ v, jsonParseList (triagePipeline raw.data) = some v ∧
         jsTrim (normalizeTriage v fid).response_draft = "")) := by
  refine ⟨rfl, ?_⟩
  cases hp : jsonParseList (triagePipeline raw.data) with
  | none => simp [triage, triageCore, hp]
  | some v =>
      cases v with
      | null =>
          simp only [triage, triageCore, hp]
          constructor
          · intro _
            exact Or.inr ⟨JsValue.null, rfl, by simp [normalizeTriage, jsGetProp, jsTrim, jsTrimList,
              dropLeadingWhile, dropTrailingWhile]⟩
          · intro _; trivial
      | bool b => simp [triage, triageCore, hp]
      | num n => simp [triage, triageCore, hp]
      | str s => simp [triage, triageCore, hp]
      | arr xs => simp [triage, triageCore, hp]
      | obj fs => simp [triage, triageCore, hp]

/-! ### C5 — field-by-field normalization -/

/-- `normalizeSentiment` keeps the coerced integer exactly when it lies in
`[1, 10]`, and defaults to 5 otherwise. -/
theorem normalizeSentiment_eq (value : Option JsValue) :
    normalizeSentiment value =
      match sentimentCoerce value with
      | some n => if 1 ≤ n ∧ n ≤ 10 then n else 5
      | none => 5 := by
  cases value with
  | none => rfl
  | some v => cases v <;> rfl

/-- Case split for `strFieldValue`: the parsed string when one is present,
the default otherwise. -/
theorem strFieldValue_cases (o : Option JsValue) (d : String) :
    (∃ s, o = some (JsValue.str s) ∧ strFieldValue o d = s) ∨
    ((¬ ∃ s, o = some (JsValue.str s)) ∧ strFieldValue o d = d) := by
  cases o with
  | none => exact Or.inr ⟨fun ⟨_, hs⟩ => (nomatch hs), rfl⟩
  | some w =>
      cases w with
      | str s => exact Or.inl ⟨s, rfl, rfl⟩
      | null => exact Or.inr ⟨fun ⟨_, hs⟩ => (nomatch hs), rfl⟩
      | bool b => exact Or.inr ⟨fun ⟨_, hs⟩ => (nomatch hs), rfl⟩
      | num n => exact Or.inr ⟨fun ⟨_, hs⟩ => (nomatch hs), rfl⟩
      | arr xs => exact Or.inr ⟨fun ⟨_, hs⟩ => (nomatch hs), rfl⟩
      | obj fs => exact Or.inr ⟨fun ⟨_, hs⟩ => (nomatch hs), rfl⟩

/-- Counterexample to C5 as stated: a parsed category of `" Billing "` is not
exactly one of the allowed strings, so the claim demands `Technical`, but the
code trims the coerced string before comparing and returns `"Billing"`. -/
theorem c5_counterexample : ¬ c5StatedClaim := by
  intro h
  have hc := (h (JsValue.obj (JsObj.cons "category" (JsValue.str " Billing ") JsObj.nil)) "1").1
  have hg : jsGetProp (JsValue.obj (JsObj.cons "category" (JsValue.str " Billing ") JsObj.nil))
      "category" = some (JsValue.str " Billing ") := by decide
  rcases hc with ⟨s, hs, hmem, -⟩ | ⟨-, heq⟩
  · rw [hg] at hs
    injection hs with hs2
    injection hs2 with hs3
    subst hs3
    exact absurd hmem (by decide)
  · have hval : (normalizeTriage
        (JsValue.obj (JsObj.cons "category" (JsValue.str " Billing ") JsObj.nil)) "1").category =
        "Billing" := by decide
    rw [hval] at heq
    exact absurd heq (by decide)

/-- C5 (amended): as the claim states it, except that for category and
urgency the code compares the *trimmed string coercion* of the parsed value
against the allowed strings and returns that trimmed string on a match. -/
theorem c5_normalization_amended (v : JsValue) (fid : String) :
    ((TRIAGE_CATEGORIES.contains (jsTrim (jsToStringU (jsGetProp v "category"))) = true ∧
        (normalizeTriage v fid).category = jsTrim (jsToStringU (jsGetProp v "category"))) ∨
     (¬ TRIAGE_CATEGORIES.contains (jsTrim (jsToStringU (jsGetProp v "category"))) = true ∧
        (normalizeTriage v fid).category = "Technical")) ∧
    ((∃ n, sentimentCoerce (jsGetProp v "sentiment_score") = some n ∧ 1 ≤ n ∧ n ≤ 10 ∧
        (normalizeTriage v fid).sentiment_score = n) ∨
     ((¬ ∃ n, sentimentCoerce (jsGetProp v "sentiment_score") = some n ∧ 1 ≤ n ∧ n ≤ 10) ∧
        (normalizeTriage v fid).sentiment_score = 5)) ∧
    ((TRIAGE_URGENCIES.contains (jsTrim (jsToStringU (jsGetProp v "urgency"))) = true ∧
        (normalizeTriage v fid).urgency = jsTrim (jsToStringU (jsGetProp v "urgency"))) ∨
     (¬ TRIAGE_URGENCIES.contains (jsTrim (jsToStringU (jsGetProp v "urgency"))) = true ∧
        (normalizeTriage v fid).urgency = "Medium")) ∧
    ((∃ s, jsGetProp v "ticket_id" = some (JsValue.str s) ∧ (normalizeTriage v fid).ticket_id = s) ∨
     ((¬ ∃ s, jsGetProp v "ticket_id" = some (JsValue.str s)) ∧
        (normalizeTriage v fid).ticket_id = fid)) ∧
    ((∃ s, jsGetProp v "response_draft" = some (JsValue.str s) ∧
        (normalizeTriage v fid).response_draft = s) ∨
     ((¬ ∃ s, jsGetProp v "response_draft" = some (JsValue.str s)) ∧
        (normalizeTriage v fid).response_draft = "")) := by
  have hcat : (normalizeTriage v fid).category =
      if TRIAGE_CATEGORIES.contains (jsTrim (jsToStringU (jsGetProp v "category"))) = true
      then jsTrim (jsToStringU (jsGetProp v "category")) else "Technical" := rfl
  have hurg : (normalizeTriage v fid).urgency =
      if TRIAGE_URGENCIES.contains (jsTrim (jsToStringU (jsGetProp v "urgency"))) = true
      then jsTrim (jsToStringU (jsGetProp v "urgency")) else "Medium" := rfl
  refine ⟨?_, ?_, ?_, ?_, ?_⟩
  · by_cases h : TRIAGE_CATEGORIES.contains (jsTrim (jsToStringU (jsGetProp v "category"))) = true
    · exact Or.inl ⟨h, by rw [hcat, if_pos h]⟩
    · exact Or.inr ⟨h, by rw [hcat, if_neg h]⟩
  · have hfield : (normalizeTriage v fid).sentiment_score =
        normalizeSentiment (jsGetProp v "sentiment_score") := rfl
    rw [hfield, normalizeSentiment_eq]
    cases hc : sentimentCoerce (jsGetProp v "sentiment_score") with
    | none =>
        refine Or.inr ⟨?_, rfl⟩
        rintro ⟨n, hn, -⟩
        cases hn
    | some n =>
        by_cases hr : 1 ≤ n ∧ n ≤ 10
        · exact Or.inl ⟨n, rfl, hr.1, hr.2, by simp [hr]⟩
        · refine Or.inr ⟨?_, by simp [hr]⟩
          rintro ⟨m, hm, h1, h2⟩
          injection hm with hm2
          subst hm2
          exact hr ⟨h1, h2⟩
  · by_cases h : TRIAGE_URGENCIES.contains (jsTrim (jsToStringU (jsGetProp v "urgency"))) = true
    · exact Or.inl ⟨h, by rw [hurg, if_pos h]⟩
    · exact Or.inr ⟨h, by rw [hurg, if_neg h]⟩
  · have e : (normalizeTriage v fid).ticket_id = strFieldValue (jsGetProp v "ticket_id") fid := by
      cases hg : jsGetProp v "ticket_id" with
      | none => simp [normalizeTriage, strFieldValue, hg]
      | some w => cases w <;> simp [normalizeTriage, strFieldValue, hg]
    rw [e]
    exact strFieldValue_cases (jsGetProp v "ticket_id") fid
  · have e : (normalizeTriage v fid).response_draft = strFieldValue (jsGetProp v "response_draft") "" := by
      cases hg : jsGetProp v "response_draft" with
      | none => simp [normalizeTriage, strFieldValue, hg]
      | some w => cases w <;> simp [normalizeTriage, strFieldValue, hg]
    rw [e]
    exact strFieldValue_cases (jsGetProp v "response_draft") ""

/-! ### List lemmas for the code-fence equivalence (C9) -/

/-- Dropping while `p` skips over a whole block of `p`-satisfying characters. -/
theorem dropWhile_append_of_all {p : Char → Bool} :
    ∀ (A B : List Char), (∀ c ∈ A, p c = true) → (A ++ B).dropWhile p = B.dropWhile p := by
  intro A
  induction A with
  | nil => intro B _; rfl
  | cons a A ih =>
      intro B h
      have ha : p a = true := h a (by simp)
      simp only [List.cons_append, List.dropWhile_cons, ha, if_true]
      exact ih B (fun c hc => h c (by simp [hc]))

/-- Dropping while `p` stops at a head that violates `p`. -/
theorem dropWhile_cons_of_neg {p : Char → Bool} {c : Char} (l : List Char)
    (h : p c = false) : (c :: l).dropWhile p = c :: l := by
  simp [List.dropWhile_cons, h]

/-- JSON whitespace is also JavaScript whitespace. -/
theorem wsJson_to_wsJs {c : Char} (h : wsJson c = true) : wsJs c = true := by
  simp [wsJs, h]

/-- A JavaScript trim removes exactly a whitespace-only margin around a block
whose first and last characters are not whitespace. -/
theorem jsTrimList_sandwich (A B core : List Char)
    (hA : ∀ x ∈ A, wsJs x = true) (hB : ∀ x ∈ B, wsJs x = true)
    (hhead : ∃ c rest, core = c :: rest ∧ wsJs c = false)
    (hlast : ∃ d pre2, core = pre2 ++ [d] ∧ wsJs d = false) :
    jsTrimList (A ++ core ++ B) = core := by
  obtain ⟨c, restc, hc, hcw⟩ := hhead
  obtain ⟨d, pred, hd, hdw⟩ := hlast
  unfold jsTrimList dropLeadingWhile dropTrailingWhile
  rw [List.append_assoc, dropWhile_append_of_all A (core ++ B) hA]
  rw [hc, List.cons_append, dropWhile_cons_of_neg _ hcw, ← List.cons_append, ← hc]
  rw [hd, List.append_assoc, List.reverse_append, List.reverse_append, List.append_assoc]
  rw [dropWhile_append_of_all B.reverse _ (fun x hx => hB x (List.mem_reverse.mp hx))]
  simp only [List.reverse_cons, List.reverse_nil, List.nil_append, List.singleton_append]
  rw [dropWhile_cons_of_neg _ hdw]
  simp

/-- `stripLeadFence` is the identity when the text does not start with a
backtick. -/
theorem stripLeadFence_of_ne (c : Char) (l : List Char) (h : c ≠ '\x60') :
    stripLeadFence (c :: l) = c :: l := by
  unfold stripLeadFence
  split
  · next rest heq =>
      exact absurd (by injection heq) h
  · rfl

/-- `stripLeadFence` after an opening fence: drop an optional `json` tag and
following whitespace. -/
theorem stripLeadFence_fence (X : List Char) :
    stripLeadFence ('\x60' :: '\x60' :: '\x60' :: X) =
      (if (X.take 4).map lowerAscii = jsonTagChars then X.drop 4 else X).dropWhile wsJs := rfl

/-- On the reversed text, `stripTrailFenceRev` is the identity when the first
non-whitespace character is not a backtick. -/
theorem stripTrailFenceRev_of_head (l : List Char) (c : Char) (rest : List Char)
    (h : l.dropWhile wsJs = c :: rest) (hc : c ≠ '\x60') :
    stripTrailFenceRev l = l := by
  unfold stripTrailFenceRev
  rw [h]
  split
  · next rest2 heq =>
      exact absurd (by injection heq) hc
  · rfl

/-- On the reversed text, `stripTrailFenceRev` after trailing whitespace and a
fence: drop both and the whitespace before the fence. -/
theorem stripTrailFenceRev_fence (l rest2 : List Char)
    (h : l.dropWhile wsJs = '\x60' :: '\x60' :: '\x60' :: rest2) :
    stripTrailFenceRev l = rest2.dropWhile wsJs := by
  unfold stripTrailFenceRev
  rw [h]
  rfl

/-- A string whose first character lower-cases to something other than `j`
cannot carry the `json` fence tag. -/
theorem take4_map_ne_json (c : Char) (rest : List Char) (h : lowerAscii c ≠ 'j') :
    ((c :: rest).take 4).map lowerAscii ≠ jsonTagChars := by
  intro hcontra
  simp only [List.take, List.map, jsonTagChars] at hcontra
  exact h (by injection hcontra)

/-- JavaScript whitespace never lower-cases to `j`. -/
theorem wsJs_lowerAscii_ne (c : Char) (h : wsJs c = true) : lowerAscii c ≠ 'j' := by
  simp only [wsJs, wsJson, Bool.or_eq_true, decide_eq_true_eq] at h
  rcases h with ((((h | h) | h) | h) | h) | h <;> subst h <;> decide

/-- The triage preprocessing is the identity margin-trim on a brace-delimited
JSON object text surrounded only by whitespace. -/
theorem triagePipeline_core (P Q M : List Char)
    (hP : ∀ x ∈ P, wsJs x = true) (hQ : ∀ x ∈ Q, wsJs x = true) :
    triagePipeline (P ++ ('\x7b' :: M ++ ['\x7d']) ++ Q) = '\x7b' :: M ++ ['\x7d'] := by
  have hhead : ∃ c rest, '\x7b' :: M ++ ['\x7d'] = c :: rest ∧ wsJs c = false :=
    ⟨'\x7b', M ++ ['\x7d'], rfl, by decide⟩
  have hlast : ∃ d pre2, '\x7b' :: M ++ ['\x7d'] = pre2 ++ [d] ∧ wsJs d = false :=
    ⟨'\x7d', '\x7b' :: M, by simp, by decide⟩
  have htr : stripTrailFence ('\x7b' :: M ++ ['\x7d']) = '\x7b' :: M ++ ['\x7d'] := by
    unfold stripTrailFence
    rw [stripTrailFenceRev_of_head ('\x7b' :: M ++ ['\x7d']).reverse '\x7d'
          (M.reverse ++ ['\x7b']) ?hds (by decide)]
    · exact List.reverse_reverse _
    case hds =>
      rw [show ('\x7b' :: M ++ ['\x7d']).reverse = '\x7d' :: (M.reverse ++ ['\x7b']) from by simp]
      exact dropWhile_cons_of_neg _ (by decide)
  unfold triagePipeline
  rw [jsTrimList_sandwich P Q _ hP hQ hhead hlast]
  rw [show stripLeadFence ('\x7b' :: M ++ ['\x7d']) = '\x7b' :: M ++ ['\x7d'] from
        stripLeadFence_of_ne _ _ (by decide)]
  rw [htr]
  simpa using jsTrimList_sandwich [] [] ('\x7b' :: M ++ ['\x7d']) (by simp) (by simp) hhead hlast

/-- Dropping JavaScript whitespace over a whitespace block lands on an
opening brace. -/
theorem dropWs_to_brace (W rest : List Char) (hW : ∀ x ∈ W, wsJs x = true) :
    (W ++ ('\x7b' :: rest)).dropWhile wsJs = '\x7b' :: rest := by
  rw [dropWhile_append_of_all W _ hW]
  exact dropWhile_cons_of_neg _ (by decide)

/-- Stripping the trailing fence from the object text followed by whitespace
and three backticks recovers the object text. -/
theorem stripTrail_objectFence (Q suf M : List Char)
    (hQ : ∀ x ∈ Q, wsJs x = true) (hsuf : ∀ x ∈ suf, wsJs x = true) :
    stripTrailFence ('\x7b' :: (M ++ '\x7d' :: (Q ++ suf ++ ('\x60' :: '\x60' :: ['\x60'])))) =
      '\x7b' :: M ++ ['\x7d'] := by
  unfold stripTrailFence
  have hrev : ('\x7b' :: (M ++ '\x7d' :: (Q ++ suf ++ ('\x60' :: '\x60' :: ['\x60'])))).reverse =
      '\x60' :: '\x60' :: '\x60' ::
        ((suf.reverse ++ Q.reverse) ++ ('\x7d' :: (M.reverse ++ ['\x7b']))) := by
    simp
  have hdws : ('\x7b' :: (M ++ '\x7d' :: (Q ++ suf ++ ('\x60' :: '\x60' :: ['\x60'])))).reverse.dropWhile wsJs =
      '\x60' :: '\x60' :: '\x60' ::
        ((suf.reverse ++ Q.reverse) ++ ('\x7d' :: (M.reverse ++ ['\x7b']))) := by
    rw [hrev]
    exact dropWhile_cons_of_neg _ (by decide)
  rw [stripTrailFenceRev_fence _ _ hdws]
  rw [dropWhile_append_of_all (suf.reverse ++ Q.reverse) _ ?hsq]
  · rw [dropWhile_cons_of_neg _ (by decide)]
    simp
  case hsq =>
    intro x hx
    rcases List.mem_append.mp hx with h | h
    · exact hsuf x (List.mem_reverse.mp h)
    · exact hQ x (List.mem_reverse.mp h)

/-- The triage preprocessing strips a whitespace-padded Markdown code fence
(tag either `json` or absent) from around a brace-delimited JSON object text,
leaving exactly the object text. -/
theorem triagePipeline_wrapped (pre sep suf post P Q M tag : List Char)
    (htagopt : tag = jsonTagChars ∨ tag = [])
    (hpre : ∀ x ∈ pre, wsJs x = true) (hsep : ∀ x ∈ sep, wsJs x = true)
    (hsuf : ∀ x ∈ suf, wsJs x = true) (hpost : ∀ x ∈ post, wsJs x = true)
    (hP : ∀ x ∈ P, wsJs x = true) (hQ : ∀ x ∈ Q, wsJs x = true) :
    triagePipeline (pre ++ ('\x60' :: '\x60' :: '\x60' ::
        (tag ++ sep ++ (P ++ ('\x7b' :: M ++ ['\x7d']) ++ Q) ++ suf ++
          ('\x60' :: '\x60' :: ['\x60']))) ++ post) =
      '\x7b' :: M ++ ['\x7d'] := by
  have hsp : ∀ x ∈ sep ++ P, wsJs x = true := by
    intro x hx
    rcases List.mem_append.mp hx with h | h
    · exact hsep x h
    · exact hP x h
  have hhead : ∃ c rest, '\x7b' :: M ++ ['\x7d'] = c :: rest ∧ wsJs c = false :=
    ⟨'\x7b', M ++ ['\x7d'], rfl, by decide⟩
  have hlast : ∃ d pre2, '\x7b' :: M ++ ['\x7d'] = pre2 ++ [d] ∧ wsJs d = false :=
    ⟨'\x7d', '\x7b' :: M, by simp, by decide⟩
  unfold triagePipeline
  rw [jsTrimList_sandwich pre post _ hpre hpost
        ⟨'\x60', _, rfl, by decide⟩
        ⟨'\x60', '\x60' :: '\x60' :: '\x60' ::
            (tag ++ sep ++ (P ++ ('\x7b' :: M ++ ['\x7d']) ++ Q) ++ suf ++ ['\x60', '\x60']),
          by simp, by decide⟩]
  have hstrip : stripLeadFence ('\x60' :: '\x60' :: '\x60' ::
      (tag ++ sep ++ (P ++ ('\x7b' :: M ++ ['\x7d']) ++ Q) ++ suf ++
        ('\x60' :: '\x60' :: ['\x60']))) =
      '\x7b' :: (M ++ '\x7d' :: (Q ++ suf ++ ('\x60' :: '\x60' :: ['\x60']))) := by
    rw [stripLeadFence_fence]
    rcases htagopt with rfl | rfl
    · have hX4 : jsonTagChars ++ sep ++ (P ++ ('\x7b' :: M ++ ['\x7d']) ++ Q) ++ suf ++
          ('\x60' :: '\x60' :: ['\x60']) =
          'j' :: 's' :: 'o' :: 'n' ::
            ((sep ++ P) ++ ('\x7b' :: (M ++ '\x7d' :: (Q ++ suf ++ ('\x60' :: '\x60' :: ['\x60']))))) := by
        simp [jsonTagChars]
      rw [hX4]
      have h4take : ('j' :: 's' :: 'o' :: 'n' ::
          ((sep ++ P) ++ ('\x7b' :: (M ++ '\x7d' :: (Q ++ suf ++ ('\x60' :: '\x60' :: ['\x60'])))))).take 4 =
          jsonTagChars := rfl
      have h4map : jsonTagChars.map lowerAscii = jsonTagChars := by decide
      have hcond : (('j' :: 's' :: 'o' :: 'n' ::
          ((sep ++ P) ++ ('\x7b' :: (M ++ '\x7d' :: (Q ++ suf ++ ('\x60' :: '\x60' :: ['\x60'])))))).take 4).map
            lowerAscii = jsonTagChars := by
        rw [h4take]; exact h4map
      rw [if_pos hcond]
      have h4drop : ('j' :: 's' :: 'o' :: 'n' ::
          ((sep ++ P) ++ ('\x7b' :: (M ++ '\x7d' :: (Q ++ suf ++ ('\x60' :: '\x60' :: ['\x60'])))))).drop 4 =
          (sep ++ P) ++ ('\x7b' :: (M ++ '\x7d' :: (Q ++ suf ++ ('\x60' :: '\x60' :: ['\x60'])))) := rfl
      rw [h4drop]
      exact dropWs_to_brace _ _ hsp
    · have hXeq : [] ++ sep ++ (P ++ ('\x7b' :: M ++ ['\x7d']) ++ Q) ++ suf ++
          ('\x60' :: '\x60' :: ['\x60']) =
          (sep ++ P) ++ ('\x7b' :: (M ++ '\x7d' :: (Q ++ suf ++ ('\x60' :: '\x60' :: ['\x60'])))) := by
        simp
      rw [hXeq]
      have hcond : (((sep ++ P) ++
          ('\x7b' :: (M ++ '\x7d' :: (Q ++ suf ++ ('\x60' :: '\x60' :: ['\x60']))))).take 4).map
            lowerAscii ≠ jsonTagChars := by
        cases hspc : sep ++ P with
        | nil =>
            rw [List.nil_append]
            exact take4_map_ne_json '\x7b' _ (by decide)
        | cons w ws' =>
            have hw : wsJs w = true := hsp w (by rw [hspc]; simp)
            rw [List.cons_append]
            exact take4_map_ne_json w _ (wsJs_lowerAscii_ne w hw)
      rw [if_neg hcond]
      exact dropWs_to_brace _ _ hsp
  rw [hstrip, stripTrail_objectFence Q suf M hQ hsuf]
  simpa using jsTrimList_sandwich [] [] ('\x7b' :: M ++ ['\x7d']) (by simp) (by simp) hhead hlast

/-! ### Parser structure lemmas: the unparsed rest is a suffix of the input -/

/-- `readDigits` leaves a suffix of its input. -/
theorem readDigits_suffix (l : List Char) (v k : Nat) (rest : List Char)
    (h : readDigits l = some (v, k, rest)) : rest <:+ l := by
  simp only [readDigits] at h
  split at h
  · cases h
  · simp only [Option.some.injEq, Prod.mk.injEq] at h
    obtain ⟨-, -, hr⟩ := h
    rw [← hr]
    exact List.dropWhile_suffix _

/-- `parseNumInt` leaves a suffix of its input. -/
theorem parseNumInt_suffix (l : List Char) (v : Nat) (rest : List Char)
    (h : parseNumInt l = some (v, rest)) : rest <:+ l := by
  unfold parseNumInt at h
  split at h
  · next r =>
      simp only [Option.some.injEq, Prod.mk.injEq] at h
      rw [← h.2]
      exact List.suffix_cons _ _
  · next c r hne =>
      split at h
      · obtain ⟨p, hp, heq⟩ := Option.map_eq_some'.mp h
        simp only [Prod.mk.injEq] at heq
        rw [← heq.2]
        exact readDigits_suffix _ _ _ _ (by rw [hp])
      · cases h
  · cases h

/-- `parseNumExp` leaves a suffix of its input. -/
theorem parseNumExp_suffix (neg : Bool) (m1 : Nat) (e1 : Int) (l : List Char)
    (n : JsNum) (rest : List Char)
    (h : parseNumExp neg m1 e1 l = some (n, rest)) : rest <:+ l := by
  unfold parseNumExp at h
  split at h
  · split at h
    · next r2 =>
        obtain ⟨p, hp, heq⟩ := Option.map_eq_some'.mp h
        simp only [Prod.mk.injEq] at heq
        rw [← heq.2]
        exact ((readDigits_suffix _ _ _ _ (by rw [hp])).trans
          (List.suffix_cons _ _)).trans (List.suffix_cons _ _)
    · next r2 =>
        obtain ⟨p, hp, heq⟩ := Option.map_eq_some'.mp h
        simp only [Prod.mk.injEq] at heq
        rw [← heq.2]
        exact ((readDigits_suffix _ _ _ _ (by rw [hp])).trans
          (List.suffix_cons _ _)).trans (List.suffix_cons _ _)
    · obtain ⟨p, hp, heq⟩ := Option.map_eq_some'.mp h
      simp only [Prod.mk.injEq] at heq
      rw [← heq.2]
      exact (readDigits_suffix _ _ _ _ (by rw [hp])).trans (List.suffix_cons _ _)
  · split at h
    · next r2 =>
        obtain ⟨p, hp, heq⟩ := Option.map_eq_some'.mp h
        simp only [Prod.mk.injEq] at heq
        rw [← heq.2]
        exact ((readDigits_suffix _ _ _ _ (by rw [hp])).trans
          (List.suffix_cons _ _)).trans (List.suffix_cons _ _)
    · next r2 =>
        obtain ⟨p, hp, heq⟩ := Option.map_eq_some'.mp h
        simp only [Prod.mk.injEq] at heq
        rw [← heq.2]
        exact ((readDigits_suffix _ _ _ _ (by rw [hp])).trans
          (List.suffix_cons _ _)).trans (List.suffix_cons _ _)
    · obtain ⟨p, hp, heq⟩ := Option.map_eq_some'.mp h
      simp only [Prod.mk.injEq] at heq
      rw [← heq.2]
      exact (readDigits_suffix _ _ _ _ (by rw [hp])).trans (List.suffix_cons _ _)
  · simp only [Option.some.injEq, Prod.mk.injEq] at h
    rw [← h.2]

/-- `parseNumRest` leaves a suffix of its input. -/
theorem parseNumRest_suffix (neg : Bool) (ival : Nat) (l : List Char)
    (n : JsNum) (rest : List Char)
    (h : parseNumRest neg ival l = some (n, rest)) : rest <:+ l := by
  unfold parseNumRest at h
  split at h
  · next r =>
      split at h
      · cases h
      · next fv fk r2 hrd =>
          refine List.IsSuffix.trans ?_ (List.suffix_cons _ _)
          exact List.IsSuffix.trans (parseNumExp_suffix _ _ _ _ _ _ h)
            (readDigits_suffix _ _ _ _ hrd)
  · exact parseNumExp_suffix _ _ _ _ _ _ h

/-- `parseNumberTok` leaves a suffix of its input. -/
theorem parseNumberTok_suffix (l : List Char) (n : JsNum) (rest : List Char)
    (h : parseNumberTok l = some (n, rest)) : rest <:+ l := by
  unfold parseNumberTok at h
  split at h
  · next r =>
      split at h
      · cases h
      · next ival l2 hint =>
          refine List.IsSuffix.trans ?_ (List.suffix_cons _ _)
          exact List.IsSuffix.trans (parseNumRest_suffix _ _ _ _ _ h)
            (parseNumInt_suffix _ _ _ hint)
  · split at h
    · cases h
    · next ival l2 hint =>
        exact List.IsSuffix.trans (parseNumRest_suffix _ _ _ _ _ h)
          (parseNumInt_suffix _ _ _ hint)

/-- `parseStringBody` leaves a suffix of its input. -/
theorem parseStringBody_suffix : ∀ (l s rest : List Char),
    parseStringBody l = some (s, rest) → rest <:+ l := by
  intro l
  induction l using parseStringBody.induct with
  | case1 =>
      intro s rest h
      simp [parseStringBody] at h
  | case2 =>
      rename_i rest0
      intro s rest h
      simp only [parseStringBody, Option.some.injEq, Prod.mk.injEq] at h
      rw [← h.2]
      exact List.suffix_cons _ _
  | case3 =>
      rename_i a b c d rest0 va vb vc vd hd hc hb ha ih
      intro s rest h
      simp only [parseStringBody, ha, hb, hc, hd] at h
      obtain ⟨p, hp, heq⟩ := Option.map_eq_some'.mp h
      simp only [Prod.mk.injEq] at heq
      rw [← heq.2]
      exact (ih p.1 p.2 (by rw [hp])).trans ⟨['\\', 'u', a, b, c, d], rfl⟩
  | case4 =>
      rename_i a b c d rest0 hfb
      intro s rest h
      simp only [parseStringBody] at h
      rcases ha : hexDigitVal a with _ | va
      · cases h
      rcases hb : hexDigitVal b with _ | vb
      · cases h
      rcases hc : hexDigitVal c with _ | vc
      · cases h
      rcases hd : hexDigitVal d with _ | vd
      · cases h
      exact (hfb va vb vc vd ha hb hc hd).elim
  | case5 =>
      rename_i e rest0 hshape ch heq ih
      intro s rest h
      rw [parseStringBody.eq_def] at h
      split at h
      · next heqq => exact (List.cons_ne_nil _ _ heqq).elim
      · next r' heqq =>
          injection heqq with h1 h2
          exact absurd h1 (by decide)
      · next a b c d r' heqq =>
          injection heqq with h1 h2
          injection h2 with h3 h4
          exact (hshape a b c d r' h3 h4).elim
      · next e2 r2 hsh2 heqq =>
          injection heqq with h1 h2
          injection h2 with h3 h4
          subst h3
          subst h4
          rw [heq] at h
          obtain ⟨p, hp, heq2⟩ := Option.map_eq_some'.mp h
          simp only [Prod.mk.injEq] at heq2
          rw [← heq2.2]
          exact (ih p.1 p.2 (by rw [hp])).trans ⟨['\\', e], rfl⟩
      · next c2 r2 hn1 hn2 hn3 heqq =>
          injection heqq with h1 h2
          exact (hn3 e rest0 h1.symm h2.symm).elim
  | case6 =>
      rename_i e rest0 hshape heq
      intro s rest h
      rw [parseStringBody.eq_def] at h
      split at h
      · next heqq => exact (List.cons_ne_nil _ _ heqq).elim
      · next r' heqq =>
          injection heqq with h1 h2
          exact absurd h1 (by decide)
      · next a b c d r' heqq =>
          injection heqq with h1 h2
          injection h2 with h3 h4
          exact (hshape a b c d r' h3 h4).elim
      · next e2 r2 hsh2 heqq =>
          injection heqq with h1 h2
          injection h2 with h3 h4
          subst h3
          subst h4
          rw [heq] at h
          cases h
      · next c2 r2 hn1 hn2 hn3 heqq =>
          injection heqq with h1 h2
          exact (hn3 e rest0 h1.symm h2.symm).elim
  | case7 =>
      rename_i c rest0 hq hu he hlt
      intro s rest h
      rw [parseStringBody.eq_def] at h
      split at h
      · next heqq => exact (List.cons_ne_nil _ _ heqq).elim
      · next r' heqq =>
          injection heqq with h1 h2
          exact (hq h1).elim
      · next a b c2 d2 r' heqq =>
          injection heqq with h1 h2
          exact (hu a b c2 d2 r' h1 h2).elim
      · next e2 r2 hsh2 heqq =>
          injection heqq with h1 h2
          exact (he e2 r2 h1 h2).elim
      · next c2 r2 hn1 hn2 hn3 heqq =>
          injection heqq with h1 h2
          subst h1
          subst h2
          rw [if_pos hlt] at h
          cases h
  | case8 =>
      rename_i c rest0 hq hu he hge ih
      intro s rest h
      rw [parseStringBody.eq_def] at h
      split at h
      · next heqq => exact (List.cons_ne_nil _ _ heqq).elim
      · next r' heqq =>
          injection heqq with h1 h2
          exact (hq h1).elim
      · next a b c2 d2 r' heqq =>
          injection heqq with h1 h2
          exact (hu a b c2 d2 r' h1 h2).elim
      · next e2 r2 hsh2 heqq =>
          injection heqq with h1 h2
          exact (he e2 r2 h1 h2).elim
      · next c2 r2 hn1 hn2 hn3 heqq =>
          injection heqq with h1 h2
          subst h1
          subst h2
          rw [if_neg hge] at h
          obtain ⟨p, hp, heq⟩ := Option.map_eq_some'.mp h
          simp only [Prod.mk.injEq] at heq
          rw [← heq.2]
          exact (ih p.1 p.2 (by rw [hp])).trans (List.suffix_cons _ _)

/-- Each recursive parser leaves a suffix of its input. -/
theorem parse_suffix_bundle : ∀ f : Nat,
    (∀ l v rest, parseValueF f l = some (v, rest) → rest <:+ l) ∧
    (∀ l o rest, parseObjectF f l = some (o, rest) → rest <:+ l) ∧
    (∀ l kv rest, parseMemberKV f l = some (kv, rest) → rest <:+ l) ∧
    (∀ l o rest, parseMembersF f l = some (o, rest) → rest <:+ l) ∧
    (∀ l a rest, parseArrayF f l = some (a, rest) → rest <:+ l) ∧
    (∀ l a rest, parseItemsF f l = some (a, rest) → rest <:+ l) := by
  intro f
  induction f with
  | zero =>
      refine ⟨?_, ?_, ?_, ?_, ?_, ?_⟩ <;> intro l x rest h <;>
        simp [parseValueF, parseObjectF, parseMemberKV, parseMembersF, parseArrayF,
          parseItemsF] at h
  | succ f ih =>
      obtain ⟨ihv, iho, ihkv, ihm, iha, ihi⟩ := ih
      refine ⟨?_, ?_, ?_, ?_, ?_, ?_⟩
      · -- parseValueF
        intro l v rest h
        cases l with
        | nil => simp [parseValueF] at h
        | cons c tl =>
            simp only [parseValueF] at h
            split_ifs at h with h1 h2 h3 h4 h5 h6 h7
            · obtain ⟨p, hp, heq⟩ := Option.map_eq_some'.mp h
              simp only [Prod.mk.injEq] at heq
              rw [← heq.2]
              exact (iho tl p.1 p.2 (by rw [hp])).trans (List.suffix_cons _ _)
            · obtain ⟨p, hp, heq⟩ := Option.map_eq_some'.mp h
              simp only [Prod.mk.injEq] at heq
              rw [← heq.2]
              exact (iha tl p.1 p.2 (by rw [hp])).trans (List.suffix_cons _ _)
            · obtain ⟨p, hp, heq⟩ := Option.map_eq_some'.mp h
              simp only [Prod.mk.injEq] at heq
              rw [← heq.2]
              exact (parseStringBody_suffix tl p.1 p.2 (by rw [hp])).trans (List.suffix_cons _ _)
            · split at h
              · next r heqq =>
                  simp only [Option.some.injEq, Prod.mk.injEq] at h
                  rw [← h.2]
                  exact ⟨[c, 'r', 'u', 'e'], rfl⟩
              · cases h
            · split at h
              · next r heqq =>
                  simp only [Option.some.injEq, Prod.mk.injEq] at h
                  rw [← h.2]
                  exact ⟨[c, 'a', 'l', 's', 'e'], rfl⟩
              · cases h
            · split at h
              · next r heqq =>
                  simp only [Option.some.injEq, Prod.mk.injEq] at h
                  rw [← h.2]
                  exact ⟨[c, 'u', 'l', 'l'], rfl⟩
              · cases h
            · obtain ⟨p, hp, heq⟩ := Option.map_eq_some'.mp h
              simp only [Prod.mk.injEq] at heq
              rw [← heq.2]
              exact parseNumberTok_suffix _ p.1 p.2 (by rw [hp])
      · -- parseObjectF
        intro l o rest h
        simp only [parseObjectF] at h
        split at h
        · next rest2 heqq =>
            simp only [Option.some.injEq, Prod.mk.injEq] at h
            rw [← h.2]
            have h1 : rest2 <:+ List.dropWhile wsJson l := by
              rw [heqq]; exact List.suffix_cons _ _
            exact h1.trans (List.dropWhile_suffix _)
        · next hne =>
            exact (ihm _ o rest h).trans (List.dropWhile_suffix _)
      · -- parseMemberKV
        intro l kv rest h
        simp only [parseMemberKV] at h
        split at h
        · next r0 heqq =>
            split at h
            · cases h
            · next k r1 hsb =>
                split at h
                · next r3 heqq2 =>
                    split at h
                    · cases h
                    · next v r5 hval =>
                        simp only [Option.some.injEq, Prod.mk.injEq] at h
                        rw [← h.2]
                        refine List.IsSuffix.trans (List.dropWhile_suffix _) ?_
                        refine List.IsSuffix.trans (ihv _ v r5 hval) ?_
                        refine List.IsSuffix.trans (List.dropWhile_suffix _) ?_
                        have hr3 : r3 <:+ r1.dropWhile wsJson := by
                          rw [heqq2]; exact List.suffix_cons _ _
                        refine List.IsSuffix.trans hr3 ?_
                        refine List.IsSuffix.trans (List.dropWhile_suffix _) ?_
                        refine List.IsSuffix.trans (parseStringBody_suffix r0 k r1 hsb) ?_
                        have hr0 : r0 <:+ l.dropWhile wsJson := by
                          rw [heqq]; exact List.suffix_cons _ _
                        exact hr0.trans (List.dropWhile_suffix _)
                · cases h
        · cases h
      · -- parseMembersF
        intro l o rest h
        simp only [parseMembersF] at h
        split at h
        · cases h
        · next kv r6 hkv =>
            split at h
            · next r7 heqq =>
                obtain ⟨p, hp, heq⟩ := Option.map_eq_some'.mp h
                simp only [Prod.mk.injEq] at heq
                rw [← heq.2]
                refine (ihm _ p.1 p.2 (by rw [hp])).trans ?_
                exact (List.suffix_cons _ _).trans (ihkv l kv _ hkv)
            · next rest2 heqq =>
                simp only [Option.some.injEq, Prod.mk.injEq] at h
                rw [← h.2]
                exact (List.suffix_cons _ _).trans (ihkv l kv _ hkv)
            · cases h
      · -- parseArrayF
        intro l a rest h
        simp only [parseArrayF] at h
        split at h
        · next rest2 heqq =>
            simp only [Option.some.injEq, Prod.mk.injEq] at h
            rw [← h.2]
            have h1 : rest2 <:+ List.dropWhile wsJson l := by
              rw [heqq]; exact List.suffix_cons _ _
            exact h1.trans (List.dropWhile_suffix _)
        · next hne =>
            exact (ihi _ a rest h).trans (List.dropWhile_suffix _)
      · -- parseItemsF
        intro l a rest h
        simp only [parseItemsF] at h
        split at h
        · cases h
        · next v r1 hval =>
            split at h
            · next r2 heqq =>
                obtain ⟨p, hp, heq⟩ := Option.map_eq_some'.mp h
                simp only [Prod.mk.injEq] at heq
                rw [← heq.2]
                refine (ihi r2 p.1 p.2 (by rw [hp])).trans ?_
                have hr2 : r2 <:+ r1.dropWhile wsJson := by
                  rw [heqq]; exact List.suffix_cons _ _
                refine (hr2.trans (List.dropWhile_suffix _)).trans ?_
                exact (ihv _ v r1 hval).trans (List.dropWhile_suffix _)
            · next rest2 heqq =>
                simp only [Option.some.injEq, Prod.mk.injEq] at h
                rw [← h.2]
                have hr2 : rest2 <:+ r1.dropWhile wsJson := by
                  rw [heqq]; exact List.suffix_cons _ _
                refine (hr2.trans (List.dropWhile_suffix _)).trans ?_
                exact (ihv _ v r1 hval).trans (List.dropWhile_suffix _)
            · cases h

/-- A successful member-list parse stops exactly at a closing brace. -/
theorem parseMembersF_exit : ∀ f l o rest, parseMembersF f l = some (o, rest) →
    ('\x7d' :: rest) <:+ l := by
  intro f
  induction f with
  | zero => intro l o rest h; simp [parseMembersF] at h
  | succ f ih =>
      intro l o rest h
      simp only [parseMembersF] at h
      split at h
      · cases h
      · next kv r6 hkv =>
          split at h
          · next r7 heqq =>
              obtain ⟨p, hp, heq⟩ := Option.map_eq_some'.mp h
              simp only [Prod.mk.injEq] at heq
              rw [← heq.2]
              refine (ih _ p.1 p.2 (by rw [hp])).trans ?_
              exact (List.suffix_cons _ _).trans ((parse_suffix_bundle f).2.2.1 l kv _ hkv)
          · next rest2 heqq =>
              simp only [Option.some.injEq, Prod.mk.injEq] at h
              rw [← h.2]
              exact (parse_suffix_bundle f).2.2.1 l kv _ hkv
          · cases h

/-- A successful object-body parse stops exactly at a closing brace. -/
theorem parseObjectF_exit : ∀ f l o rest, parseObjectF f l = some (o, rest) →
    ('\x7d' :: rest) <:+ l := by
  intro f
  cases f with
  | zero => intro l o rest h; simp [parseObjectF] at h
  | succ f =>
      intro l o rest h
      simp only [parseObjectF] at h
      split at h
      · next rest2 heqq =>
          simp only [Option.some.injEq, Prod.mk.injEq] at h
          rw [← h.2]
          have h1 : '\x7d' :: rest2 <:+ List.dropWhile wsJson l := by
            rw [heqq]
          exact h1.trans (List.dropWhile_suffix _)
      · next hne =>
          exact (parseMembersF_exit f _ o rest h).trans (List.dropWhile_suffix _)

/-- A value parse that returns an object consumed an opening brace first. -/
theorem parseValueF_obj_shape : ∀ f l fs rest,
    parseValueF f l = some (.obj fs, rest) →
    ∃ f2 tl, f = f2 + 1 ∧ l = '\x7b' :: tl ∧ parseObjectF f2 tl = some (fs, rest) := by
  intro f l fs rest h
  cases f with
  | zero => simp [parseValueF] at h
  | succ f =>
      cases l with
      | nil => simp [parseValueF] at h
      | cons c tl =>
          simp only [parseValueF] at h
          split_ifs at h with h1 h2 h3 h4 h5 h6 h7
          · obtain ⟨p, hp, heq⟩ := Option.map_eq_some'.mp h
            simp only [Prod.mk.injEq, JsValue.obj.injEq] at heq
            refine ⟨f, tl, rfl, by rw [h1], ?_⟩
            exact hp.trans (by rw [← heq.1, ← heq.2])
          · obtain ⟨p, hp, heq⟩ := Option.map_eq_some'.mp h
            simp only [Prod.mk.injEq] at heq
            exact absurd heq.1 (by simp)
          · obtain ⟨p, hp, heq⟩ := Option.map_eq_some'.mp h
            simp only [Prod.mk.injEq] at heq
            exact absurd heq.1 (by simp)
          · split at h
            · simp at h
            · cases h
          · split at h
            · simp at h
            · cases h
          · split at h
            · simp at h
            · cases h
          · obtain ⟨p, hp, heq⟩ := Option.map_eq_some'.mp h
            simp only [Prod.mk.injEq] at heq
            exact absurd heq.1 (by simp)

/-- A text that `JSON.parse` reads as an object is JSON whitespace, an
opening brace, the object body, a closing brace and JSON whitespace. -/
theorem jsonParseList_obj_decomp (l : List Char) (fs : JsObj)
    (h : jsonParseList l = some (.obj fs)) :
    ∃ P M Q, l = P ++ ('\x7b' :: M ++ ['\x7d']) ++ Q ∧
      (∀ x ∈ P, wsJson x = true) ∧ (∀ x ∈ Q, wsJson x = true) := by
  unfold jsonParseList at h
  split at h
  · next v rest hval =>
      split at h
      · next hrest =>
          simp only [Option.some.injEq] at h
          subst h
          obtain ⟨f2, tl, _, hdw, hobj⟩ := parseValueF_obj_shape _ _ fs rest hval
          obtain ⟨mid, hmid⟩ := parseObjectF_exit f2 tl fs rest hobj
          refine ⟨l.takeWhile wsJson, mid, rest, ?_, ?_, ?_⟩
          · have hmt : ('\x7b' :: mid ++ ['\x7d']) ++ rest = '\x7b' :: tl := by
              rw [← hmid]; simp
            calc l = l.takeWhile wsJson ++ l.dropWhile wsJson :=
                  (List.takeWhile_append_dropWhile wsJson l).symm
              _ = l.takeWhile wsJson ++ ('\x7b' :: mid ++ ['\x7d']) ++ rest := by
                  rw [hdw, ← hmt]; simp
          · intro x hx
            exact List.mem_takeWhile_imp hx
          · intro x hx
            by_contra hw
            have : rest.dropWhile wsJson ≠ [] := by
              intro hnil
              have := List.dropWhile_eq_nil_iff.mp hnil x hx
              exact hw this
            exact this hrest
      · cases h
  · cases h

/-- C9: for every JSON text `j` that parses to a triage object, classifying a
response consisting of `j` wrapped in a surrounding Markdown code fence
(triple backticks, optionally tagged `json`, with surrounding whitespace)
yields exactly the same triage result — same validity, same `TriageResult` —
as classifying the unwrapped text `j`. -/
theorem c9_fence_wrap_equivalence (j pre sep suf post : List Char) (tagged : Bool)
    (fid : String) (fs : JsObj)
    (hobj : jsonParseList j = some (.obj fs))
    (hpre : ∀ x ∈ pre, wsJs x = true) (hsep : ∀ x ∈ sep, wsJs x = true)
    (hsuf : ∀ x ∈ suf, wsJs x = true) (hpost : ∀ x ∈ post, wsJs x = true) :
    (triage (String.mk (pre ++ ('\x60' :: '\x60' :: '\x60' ::
        ((if tagged then jsonTagChars else []) ++ sep ++ j ++ suf ++
          ('\x60' :: '\x60' :: ['\x60']))) ++ post)) fid).result
      = (triage (String.mk j) fid).result ∧
    (triage (String.mk (pre ++ ('\x60' :: '\x60' :: '\x60' ::
        ((if tagged then jsonTagChars else []) ++ sep ++ j ++ suf ++
          ('\x60' :: '\x60' :: ['\x60']))) ++ post)) fid).valid
      = (triage (String.mk j) fid).valid := by
  obtain ⟨P, M, Q, hjeq, hPws, hQws⟩ := jsonParseList_obj_decomp j fs hobj
  subst hjeq
  have hP : ∀ x ∈ P, wsJs x = true := fun x hx => wsJson_to_wsJs (hPws x hx)
  have hQ : ∀ x ∈ Q, wsJs x = true := fun x hx => wsJson_to_wsJs (hQws x hx)
  have hw := triagePipeline_wrapped pre sep suf post P Q M
      (if tagged then jsonTagChars else [])
      (by cases tagged <;> simp) hpre hsep hsuf hpost hP hQ
  have hu := triagePipeline_core P Q M hP hQ
  have hcore : triageCore (pre ++ ('\x60' :: '\x60' :: '\x60' ::
        ((if tagged then jsonTagChars else []) ++ sep ++
          (P ++ ('\x7b' :: M ++ ['\x7d']) ++ Q) ++ suf ++
          ('\x60' :: '\x60' :: ['\x60']))) ++ post) fid
      = triageCore (P ++ ('\x7b' :: M ++ ['\x7d']) ++ Q) fid := by
    unfold triageCore
    rw [hw, hu]
  exact ⟨by simp only [triage]; rw [hcore], by simp only [triage]; rw [hcore]⟩

theorem c9_fence_wrap_equivalence_witness :
    (triage (String.mk ([] ++ ('\x60' :: '\x60' :: '\x60' ::
        ((if true then jsonTagChars else []) ++ [] ++ ['\x7b', '\x7d'] ++ [] ++
          ('\x60' :: '\x60' :: ['\x60']))) ++ [])) "9").result
      = (triage (String.mk ['\x7b', '\x7d']) "9").result ∧
    (triage (String.mk ([] ++ ('\x60' :: '\x60' :: '\x60' ::
        ((if true then jsonTagChars else []) ++ [] ++ ['\x7b', '\x7d'] ++ [] ++
          ('\x60' :: '\x60' :: ['\x60']))) ++ [])) "9").valid
      = (triage (String.mk ['\x7b', '\x7d']) "9").valid :=
  c9_fence_wrap_equivalence ['\x7b', '\x7d'] [] [] [] [] true "9" .nil (by decide)
    (by decide) (by decide) (by decide) (by decide)
